import Mathlib

/-!
Verification development for the log ingestion/normalization/filter core of
the rtt-viewer repository (src/ui/log-io.js, src/ui/log-engine.js).

Modelling conventions for the JavaScript source:
* JS numbers are modelled as `JNum := Option Int`, `none` standing for `NaN`
  (every number the relevant code paths produce is an integer or `NaN`;
  fractional/exponential numeric literals are conflated with `NaN` and no
  theorem below depends on them).
* `null` and `undefined` are both modelled as `Option.none` of the field's
  option type, matching the source's uniform `x != null` / `x ?? d` tests.
* Strings are Lean `String`s; the string-processing functions are defined on
  `List Char` (the `.data` of the string) so that proofs can proceed by
  structural induction, with `String` wrappers at the API boundary.
-/

namespace RTT

/-- JS number: `some n` is the integer `n`, `none` is `NaN`. -/
abbrev JNum := Option Int

/-- The decimal digit characters, used for `String(number)`. -/
def digitChar : Nat → Char
  | 0 => '0' | 1 => '1' | 2 => '2' | 3 => '3' | 4 => '4'
  | 5 => '5' | 6 => '6' | 7 => '7' | 8 => '8' | _ => '9'

/-- Fuel-driven digit expansion (structural recursion so that concrete
evaluations reduce in the kernel). -/
def natCharsFuel : Nat → Nat → List Char
  | 0, _ => []
  | fuel + 1, n =>
    if n < 10 then [digitChar n]
    else natCharsFuel fuel (n / 10) ++ [digitChar (n % 10)]

/-- Decimal digits of a natural number, most significant first
(the characters of JS `String(n)` for a nonnegative integer). -/
def natChars (n : Nat) : List Char := natCharsFuel (n + 1) n

/-- JS `String(v)` for a number `v` (integer or NaN). -/
def jnumToStr : JNum → String
  | none => "NaN"
  | some i => if i < 0 then "-" ++ String.mk (natChars i.natAbs) else String.mk (natChars i.natAbs)

/-- Numeric value of a digit character. -/
def digitVal (c : Char) : Nat := c.toNat - 48

/-- `parseInt` on a string of decimal digits (the only shape the source ever
feeds it: regex captures of `\d+`). -/
def parseIntDigits (l : List Char) : Nat :=
  l.foldl (fun a c => a * 10 + digitVal c) 0

/-- JS `\s` whitespace (the characters relevant to this code base). -/
def jsWs (c : Char) : Bool :=
  c = ' ' || c = '\t' || c = '\n' || c = '\x0d' || c = '\x0c' || c = '\x0b'

/-- JS `String.prototype.trim` on a character list. -/
def jsTrim (l : List Char) : List Char :=
  ((l.dropWhile jsWs).reverse.dropWhile jsWs).reverse

/-- ASCII lower-casing of one character (what `toLowerCase` does on every
character this code base feeds it). -/
def charLower (c : Char) : Char :=
  if 'A' ≤ c ∧ c ≤ 'Z' then Char.ofNat (c.toNat + 32) else c

/-- ASCII upper-casing of one character. -/
def charUpper (c : Char) : Char :=
  if 'a' ≤ c ∧ c ≤ 'z' then Char.ofNat (c.toNat - 32) else c

/-- JS `s.toLowerCase()`. -/
def strLower (s : String) : String := String.mk (s.data.map charLower)

/-- JS `Number(s)` for a string: whitespace-trimmed; empty is `0`; an
optional sign followed by digits is that integer; anything else is `NaN`
(fraction/exponent/hex literals are conflated with `NaN`; no claim below
touches them). -/
def jsNumberOfString (s : String) : JNum :=
  match jsTrim s.data with
  | [] => some 0
  | '-' :: ds => if ds ≠ [] ∧ ds.all Char.isDigit then some (-(parseIntDigits ds : Int)) else none
  | '+' :: ds => if ds ≠ [] ∧ ds.all Char.isDigit then some ((parseIntDigits ds : Int)) else none
  | ds => if ds.all Char.isDigit then some ((parseIntDigits ds : Int)) else none

/-- The five canonical levels (log-io.js:257). -/
def LEVELS : List String := ["error", "warn", "info", "debug", "raw"]

/-- A stored log entry (the LogEntry shape of the spec / the objects held in
`state.logs`).  `id`/`terminal` are `Option JNum`: the outer `none` is JS
`null`/`undefined`, the inner `none` is `NaN`. -/
structure Entry where
  id : Option JNum := none
  terminal : Option JNum := none
  device_timestamp : Option String := none
  level : String := ""
  tag : Option String := none
  message : String := ""
  raw : String := ""
deriving DecidableEq, Repr

/-- Pre-normalization candidate record (the duck-typed object each parser
hands to `normalize`).  JS-value coercions (`Number(...)`, truthiness of
non-string values, `String(...)`) are resolved by each call site's builder;
string fields keep `""` distinct from absent so that `normalize` can apply
the source's `||` truthiness itself. -/
structure Candidate where
  id : Option JNum := none
  terminal : Option JNum := none
  device_timestamp : Option String := none
  level : Option String := none
  tag : Option String := none
  message : Option String := none
  raw : Option String := none
deriving DecidableEq, Repr

/-- JS string truthiness: `s || null` — empty string collapses to null. -/
def strOr (s : Option String) : Option String :=
  match s with
  | some "" => none
  | x => x

/-- JS `a || b` on (already truthiness-resolved) optional strings. -/
def jsOr (a b : Option String) : Option String :=
  match a with
  | some s => some s
  | none => b

/-- log-io.js:251 `normalize(obj)`.  `storeLen` is the ambient
`state.logs.length` read when `id` is absent. -/
def normalize (c : Candidate) (storeLen : Nat) : Entry :=
  { id := some (c.id.getD (some (Int.ofNat storeLen))),
    terminal := some (c.terminal.getD (some 0)),
    device_timestamp := strOr c.device_timestamp,
    level :=
      let l := strLower ((strOr c.level).getD "raw")
      if LEVELS.contains l then l else "raw",
    tag := strOr c.tag,
    message := (jsOr (strOr c.message) (strOr c.raw)).getD "",
    raw := (jsOr (strOr c.raw) (strOr c.message)).getD "" }

/-- log-io.js:264 `levelFromAbbrev` (the abbreviation-expansion helper; the
parsers never call it — relevant to claim C3). -/
def levelFromAbbrev (s : String) : String :=
  if s = "" then "raw"
  else
    let l := (strLower s).data
    if "err".data.isPrefixOf l then "error"
    else if "wrn".data.isPrefixOf l || "war".data.isPrefixOf l then "warn"
    else if "inf".data.isPrefixOf l then "info"
    else if "dbg".data.isPrefixOf l || "deb".data.isPrefixOf l then "debug"
    else "raw"

theorem normalize_level_mem (c : Candidate) (n : Nat) :
    (normalize c n).level ∈ LEVELS := by
  simp only [normalize]
  by_cases h : LEVELS.contains (strLower ((strOr c.level).getD "raw"))
  · rw [if_pos h]
    exact List.mem_of_elem_eq_true h
  · rw [if_neg h]
    simp [LEVELS]

/-! ## JSON parsing (log-io.js:86 `parseJSON`)

`JSON.parse` is a platform builtin; its successful output is modelled by the
`JVal` tree below (numbers as integers — the relevant code never relies on
fractional values), and a syntax error is modelled as the absence of a
`JVal` at the `importLogs` boundary. -/

inductive JVal where
  | null
  | bool (b : Bool)
  | num (n : Int)
  | str (s : String)
  | arr (elems : List JVal)
  | obj (fields : List (String × JVal))

/-- Is the value JS `null`/`undefined`? -/
def JVal.isNull : JVal → Bool
  | .null => true
  | _ => false

/-- JS truthiness of a JSON value. -/
def JVal.truthy : JVal → Bool
  | .null => false
  | .bool b => b
  | .num n => n != 0
  | .str s => s ≠ ""
  | .arr _ => true
  | .obj _ => true

/-- Property lookup on a parsed JSON object (duplicate keys: last wins,
as in `JSON.parse`); absent keys read as `undefined`, modelled `.null`. -/
def objGet (fs : List (String × JVal)) (k : String) : JVal :=
  match fs.reverse.find? (fun p => p.1 = k) with
  | some p => p.2
  | none => .null

/-- Property read `v[k]` on an arbitrary JSON value: primitives and arrays
have none of the entry fields, so the read gives `undefined` (`.null`). -/
def jvGet (v : JVal) (k : String) : JVal :=
  match v with
  | .obj fs => objGet fs k
  | _ => .null

/-- JS `Number(v)` on a JSON value. -/
def jsNumberOf : JVal → JNum
  | .null => some 0
  | .bool b => some (if b then 1 else 0)
  | .num n => some n
  | .str s => jsNumberOfString s
  | .arr [] => some 0
  | .arr _ => none
  | .obj _ => none

/-- JS `String(v)` on a JSON value (arrays are modelled by the empty string;
no claim depends on array- or object-valued entry fields). -/
def jsStringOf : JVal → String
  | .null => "null"
  | .bool b => if b then "true" else "false"
  | .num n => jnumToStr (some n)
  | .str s => s
  | .arr _ => ""
  | .obj _ => "[object Object]"

/-- A truthiness-resolved string field read, as `normalize` sees it:
falsy values read as absent, truthy values as their string conversion. -/
def strFieldOf (v : JVal) : Option String :=
  if v.truthy then some (jsStringOf v) else none

/-- Build the `normalize` candidate from a JSON array element.  `none`
models the run-time `TypeError`s `normalize` would hit in JS: a `null`
element (property access throws) or a truthy non-string `level`
(`.toLowerCase` is not a function); `importLogs` catches both and aborts. -/
def candidateOfJV (v : JVal) : Option Candidate :=
  match v with
  | .null => none
  | _ =>
    match (if (jvGet v "level").truthy then jvGet v "level" else .str "raw") with
    | .str s =>
      some { id := if (jvGet v "id").isNull then none else some (jsNumberOf (jvGet v "id")),
             terminal := if (jvGet v "terminal").isNull then none
                         else some (jsNumberOf (jvGet v "terminal")),
             device_timestamp := strFieldOf (jvGet v "device_timestamp"),
             level := some s,
             tag := strFieldOf (jvGet v "tag"),
             message := strFieldOf (jvGet v "message"),
             raw := strFieldOf (jvGet v "raw") }
    | _ => none

/-- The candidate builds of `arr.map(normalize)`, all-or-nothing: a thrown
`TypeError` on any element aborts the whole map. -/
def mapCandidates : List JVal → Option (List Candidate)
  | [] => some []
  | v :: vs =>
    match candidateOfJV v, mapCandidates vs with
    | some c, some cs => some (c :: cs)
    | _, _ => none

/-- log-io.js:86 `parseJSON`, from the decoded JSON value on: must be an
array, each element normalized.  `storeLen` is `state.logs.length` at parse
time (the store is only cleared later, in `importLogs`). -/
def parseJSON (v : JVal) (storeLen : Nat) : Except String (List Entry) :=
  match v with
  | .arr xs =>
    match mapCandidates xs with
    | some cs => .ok (cs.map (fun c => normalize c storeLen))
    | none => .error "TypeError"
  | _ => .error "Expected a JSON array"

/-! ## CSV export (log-io.js:28 `logsToCSV`) and import (log-io.js:92
`parseCSV`, helpers at log-io.js:319). -/

/-- Double every quote character (JS `s.replace(/"/g, '""')`). -/
def dblQuotes : List Char → List Char
  | [] => []
  | c :: r => if c = '"' then '"' :: '"' :: dblQuotes r else c :: dblQuotes r

/-- The quoting step of `escCSV`: quote when the text contains a comma,
quote, or newline. -/
def escCSV (l : List Char) : List Char :=
  if l.contains ',' || l.contains '"' || l.contains '\n' then
    '"' :: (dblQuotes l ++ ['"'])
  else l

/-- `escCSV`'s null check for the number-valued columns: `null` is the empty
cell, a number renders via `String(v)`. -/
def numCell : Option JNum → List Char
  | none => []
  | some jn => (jnumToStr jn).data

/-- `escCSV`'s null check for the string-valued columns. -/
def strCell : Option String → List Char
  | none => []
  | some s => s.data

/-- The fixed column order of log-io.js:29. -/
def csvHeader : List Char := "id,terminal,device_timestamp,level,tag,message".data

/-- `Array.prototype.join(',')`. -/
def joinComma : List (List Char) → List Char
  | [] => []
  | [r] => r
  | r :: rs => r ++ ',' :: joinComma rs

/-- `Array.prototype.join('\n')`. -/
def joinNl : List (List Char) → List Char
  | [] => []
  | [r] => r
  | r :: rs => r ++ '\n' :: joinNl rs

/-- The six columns of one entry, as `escCSV` receives them. -/
def rowCells (e : Entry) : List (List Char) :=
  [numCell e.id, numCell e.terminal, strCell e.device_timestamp,
   e.level.data, strCell e.tag, e.message.data]

/-- One CSV data row: the six columns of the entry, escaped and joined. -/
def rowChars (e : Entry) : List Char :=
  joinComma ((rowCells e).map escCSV)

/-- log-io.js:28 `logsToCSV`. -/
def logsToCSV (logs : List Entry) : String :=
  String.mk (joinNl (csvHeader :: logs.map rowChars))

/-- log-io.js:320 `splitCSVLines` — line splitting with quote tracking. -/
def splitCSVAux : List Char → Bool → List Char → List (List Char)
  | [], _, cur => if cur.isEmpty then [] else [cur]
  | c :: rest, inQ, cur =>
    if c = '"' then splitCSVAux rest (!inQ) (cur ++ [c])
    else if c = '\n' && !inQ then cur :: splitCSVAux rest inQ []
    else if c = '\x0d' && !inQ then splitCSVAux rest inQ cur
    else splitCSVAux rest inQ (cur ++ [c])

def splitCSVLines (text : String) : List (List Char) :=
  splitCSVAux text.data false []

/-- log-io.js:342 `parseCSVRow` — one row into cell values, with doubled
quotes inside a quoted cell collapsing to a literal quote. -/
def parseCSVRowAux : List Char → Bool → List Char → List (List Char)
  | [], _, cur => [cur]
  | '"' :: '"' :: rest2, true, cur => parseCSVRowAux rest2 true (cur ++ ['"'])
  | '"' :: rest, inQ, cur => parseCSVRowAux rest (!inQ) cur
  | ',' :: rest, false, cur => cur :: parseCSVRowAux rest false []
  | c :: rest, inQ, cur => parseCSVRowAux rest inQ (cur ++ [c])

def parseCSVRow (line : List Char) : List String :=
  (parseCSVRowAux line false []).map String.mk

/-- The column/value pairs the forEach of log-io.js:102 assigns:
`(col, vals[i] ?? '')`, walking the header and the values in step. -/
def csvPairs : List String → List String → List (String × String)
  | [], _ => []
  | h :: hs, vs => (h, vs.headD "") :: csvPairs hs vs.tail

/-- The header-driven object build of log-io.js:101-102
(`obj[col] = vals[i] ?? ''`): reading key `k` of the built object — the last
header occurrence of `k` wins, absent keys read as `undefined`. -/
def csvLookup (hs vs : List String) (k : String) : Option String :=
  ((csvPairs hs vs).reverse.find? (fun p => p.1 = k)).map (fun p => p.2)

/-- The candidate record `parseCSV` hands to `normalize` for one data row
(`Number(...)` applied to the present string cells of the two numeric
fields, per normalize's coercions). -/
def candidateOfCSV (hs vs : List String) : Candidate :=
  { id := (csvLookup hs vs "id").map jsNumberOfString,
    terminal := (csvLookup hs vs "terminal").map jsNumberOfString,
    device_timestamp := csvLookup hs vs "device_timestamp",
    level := csvLookup hs vs "level",
    tag := csvLookup hs vs "tag",
    message := csvLookup hs vs "message",
    raw := csvLookup hs vs "raw" }

/-- log-io.js:92 `parseCSV`. -/
def parseCSV (text : String) (storeLen : Nat) : Except String (List Entry) :=
  match splitCSVLines text with
  | [] => .error "CSV must have a header row and at least one data row"
  | [_] => .error "CSV must have a header row and at least one data row"
  | h :: rest =>
    let header := parseCSVRow h
    .ok ((rest.filter (fun l => !(jsTrim l).isEmpty)).map
      (fun line => normalize (candidateOfCSV header (parseCSVRow line)) storeLen))

/-! ## Plain-text export (log-io.js:44 `logsToText`) and the cascading
plain-text parser (log-io.js:107 `parseText`).

Each regex of the cascade is embedded as a deterministic matcher.  For
these particular patterns greedy left-to-right matching with the local
fall-backs written below coincides with the JS engine's backtracking
semantics on the inputs the theorems range over (the character classes of
adjacent tokens are disjoint except for runs over the same class, where
any split consumes the same total prefix). -/

/-- JS `\w`. -/
def isWordChar (c : Char) : Bool := c.isAlphanum || c = '_'

/-- The Zephyr tag class `[\w._-]`. -/
def isTagChar (c : Char) : Bool := isWordChar c || c = '.' || c = '-'

/-- The free-form timestamp class `[\d:.,]` of cascade rule 4. -/
def isTsChar (c : Char) : Bool := c.isDigit || c = ':' || c = '.' || c = ','

/-- `String.prototype.padStart(5)` (pad character defaults to a space). -/
def padStart5 (l : List Char) : List Char :=
  if l.length ≥ 5 then l else List.replicate (5 - l.length) ' ' ++ l

/-- `(e.level || 'raw').toUpperCase().substring(0, 3)`. -/
def lvl3 (s : String) : List Char :=
  (((if s = "" then "raw" else s).data.map charUpper).take 3)

/-- `e.message || e.raw || ''` (the final part of an exported line). -/
def msgPart (e : Entry) : List Char :=
  if e.message ≠ "" then e.message.data
  else if e.raw ≠ "" then e.raw.data
  else []

/-- `Array.prototype.join(' ')`. -/
def joinSp : List (List Char) → List Char
  | [] => []
  | [r] => r
  | r :: rs => r ++ ' ' :: joinSp rs

/-- One line of log-io.js:44 `logsToText`: the optional parts present for
the entry, joined by single spaces. -/
def lineOf (e : Entry) : List Char :=
  let parts : List (List Char) :=
    (match e.id with
     | some jn => [padStart5 (jnumToStr jn).data]
     | none => []) ++
    (match e.terminal with
     | some jn => ['T' :: (jnumToStr jn).data]
     | none => []) ++
    (match strOr e.device_timestamp with
     | some s => [s.data]
     | none => []) ++
    ['[' :: (lvl3 e.level ++ [']'])] ++
    (match strOr e.tag with
     | some t => ['<' :: (t.data ++ ['>'])]
     | none => []) ++
    [msgPart e]
  joinSp parts

/-- log-io.js:44 `logsToText`. -/
def logsToText (logs : List Entry) : String :=
  String.mk (joinNl (logs.map lineOf))

/-- `text.replace(/\r\n/g, '\n').replace(/\r/g, '\n')`. -/
def normNl : List Char → List Char
  | [] => []
  | '\x0d' :: '\n' :: r => '\n' :: normNl r
  | '\x0d' :: r => '\n' :: normNl r
  | c :: r => c :: normNl r

/-- `text.split('\n')`. -/
def splitNl : List Char → List (List Char)
  | [] => [[]]
  | '\n' :: r => [] :: splitNl r
  | c :: r =>
    match splitNl r with
    | s :: rest => (c :: s) :: rest
    | [] => [[c]]

/-- Cascade step 1, `^(\d{2})>\s(.*)$` (RTT terminal prefix): two digit
characters, a literal marker, one whitespace character, the rest. -/
def rttMatch (s : List Char) : Option (Nat × List Char) :=
  match s with
  | a :: b :: g :: c :: rest =>
    if a.isDigit && b.isDigit && g = '>' && jsWs c then
      some (parseIntDigits [a, b], rest)
    else none
  | _ => none

/-- The part of the Zephyr pattern after the timestamp:
`\s*<(\w+)>\s*([\w._-]+):\s*(.*)$`. -/
def zephyrTail (ts : List Char) (r : List Char) :
    Option (List Char × List Char × List Char × List Char) :=
  match r.dropWhile jsWs with
  | '<' :: r2 =>
    let w := r2.takeWhile isWordChar
    if w.isEmpty then none else
    match r2.drop w.length with
    | '>' :: r3 =>
      let r4 := r3.dropWhile jsWs
      let tg := r4.takeWhile isTagChar
      if tg.isEmpty then none else
      match r4.drop tg.length with
      | ':' :: r5 => some (ts, w, tg, r5.dropWhile jsWs)
      | _ => none
    | _ => none
  | _ => none

/-- Close the timestamp bracket: the `\]` after the optional `,\d{3}`. -/
def zephyrClose (ts : List Char) (rest : List Char) :
    Option (List Char × List Char × List Char × List Char) :=
  match rest with
  | ']' :: r2 => zephyrTail ts r2
  | _ => none

/-- The timestamp-and-rest parse after the opening bracket of the Zephyr
pattern. -/
def zephyrTs (r : List Char) :
    Option (List Char × List Char × List Char × List Char) :=
  match r with
  | h1 :: h2 :: ':' :: n1 :: n2 :: ':' :: c1 :: c2 :: '.' :: d1 :: d2 :: d3 :: rest =>
    if h1.isDigit && h2.isDigit && n1.isDigit && n2.isDigit && c1.isDigit &&
       c2.isDigit && d1.isDigit && d2.isDigit && d3.isDigit then
      let base := [h1, h2, ':', n1, n2, ':', c1, c2, '.', d1, d2, d3]
      match rest with
      | ',' :: f1 :: f2 :: f3 :: ']' :: r2 =>
        if f1.isDigit && f2.isDigit && f3.isDigit then
          zephyrTail (base ++ [',', f1, f2, f3]) r2
        else zephyrClose base rest
      | _ => zephyrClose base rest
    else none
  | _ => none

/-- Cascade step 2 (log-io.js:126), the Zephyr pattern
`^\[(\d{2}:\d{2}:\d{2}\.\d{3}(?:,\d{3})?)\]\s*<(\w+)>\s*([\w._-]+):\s*(.*)$`;
returns (timestamp, level word, tag, message). -/
def zephyrMatch (s : List Char) :
    Option (List Char × List Char × List Char × List Char) :=
  match s with
  | '[' :: r => zephyrTs r
  | _ => none

/-- Cascade step 3 (log-io.js:141), `^<(\w+)>(.*)$`; returns (tag, rest). -/
def taggedMatch (s : List Char) : Option (List Char × List Char) :=
  match s with
  | '<' :: r =>
    let w := r.takeWhile isWordChar
    if w.isEmpty then none else
    match r.drop w.length with
    | '>' :: rest => some (w, rest)
    | _ => none
  | _ => none

/-- The optional `(?:<([^>]+)>)?` group: the captured tag and the position
matching resumes from (unchanged when the group fails). -/
def rule4Tag (s8 : List Char) : Option (List Char) × List Char :=
  match s8 with
  | '<' :: r3 =>
    if (r3.takeWhile (fun c => c ≠ '>')).isEmpty then (none, s8) else
    match r3.drop (r3.takeWhile (fun c => c ≠ '>')).length with
    | '>' :: r4 => (some (r3.takeWhile (fun c => c ≠ '>')), r4)
    | _ => (none, s8)
  | _ => (none, s8)

/-- The closing `\]` and the tail groups of rule 4. -/
def rule4Close (d td tok : Option (List Char)) (w rem : List Char) :
    Option (Option (List Char) × Option (List Char) × Option (List Char) ×
            List Char × Option (List Char) × List Char) :=
  match rem with
  | ']' :: r2 =>
    some (d, td, tok, w, (rule4Tag (r2.dropWhile jsWs)).1,
          (rule4Tag (r2.dropWhile jsWs)).2.dropWhile jsWs)
  | _ => none

/-- The mandatory `\[(\w+)\]` of rule 4. -/
def rule4Bracket (d td tok : Option (List Char)) (s7 : List Char) :
    Option (Option (List Char) × Option (List Char) × Option (List Char) ×
            List Char × Option (List Char) × List Char) :=
  match s7 with
  | '[' :: r =>
    if (r.takeWhile isWordChar).isEmpty then none
    else rule4Close d td tok (r.takeWhile isWordChar)
      (r.drop (r.takeWhile isWordChar).length)
  | _ => none

/-- The optional `(?:T(\d+))?` group of rule 4: the captured terminal digits
and the position matching resumes from (unchanged when the group fails). -/
def rule4T (s3 : List Char) : Option (List Char) × List Char :=
  match s3 with
  | 'T' :: r =>
    if (r.takeWhile Char.isDigit).isEmpty then (none, s3)
    else (some (r.takeWhile Char.isDigit), r.drop (r.takeWhile Char.isDigit).length)
  | _ => (none, s3)

/-- Cascade step 4 (log-io.js:155), the self-export shape
`^\s*(\d+)?\s*(?:T(\d+))?\s*([\d:.,]+)?\s*\[(\w+)\]\s*(?:<([^>]+)>)?\s*(.*)$`;
returns the six capture groups (sequence digits, terminal digits, timestamp
token, level word, tag, message). -/
def rule4Match (s : List Char) :
    Option (Option (List Char) × Option (List Char) × Option (List Char) ×
            List Char × Option (List Char) × List Char) :=
  let s1 := s.dropWhile jsWs
  let d := s1.takeWhile Char.isDigit
  let s3 := (s1.drop d.length).dropWhile jsWs
  let tPair := rule4T s3
  let s5 := tPair.2.dropWhile jsWs
  let ts := s5.takeWhile isTsChar
  let s7 := (s5.drop ts.length).dropWhile jsWs
  rule4Bracket (if d.isEmpty then none else some d) tPair.1
    (if ts.isEmpty then none else some ts) s7

/-- One line of log-io.js:107 `parseText`: terminal-prefix strip, then the
first matching recognizer of the cascade; returns the entry and the updated
synthetic-id counter. -/
def parseTextLine (storeLen ctr : Nat) (line : List Char) : Entry × Nat :=
  let pm := rttMatch line
  let term : Nat := match pm with | some p => p.1 | none => 0
  let content : List Char := match pm with | some p => p.2 | none => line
  match zephyrMatch content with
  | some (ts, lvl, tg, msg) =>
    (normalize { id := some (some (Int.ofNat ctr)),
                 terminal := some (some (Int.ofNat term)),
                 device_timestamp := some (String.mk ts),
                 level := some (String.mk lvl), tag := some (String.mk tg),
                 message := some (String.mk msg),
                 raw := some (String.mk line) } storeLen, ctr + 1)
  | none =>
  match taggedMatch content with
  | some (tg, restc) =>
    (normalize { id := some (some (Int.ofNat ctr)),
                 terminal := some (some (Int.ofNat term)),
                 level := some "raw", tag := some (String.mk tg),
                 message := some (String.mk (jsTrim restc)),
                 raw := some (String.mk line) } storeLen, ctr + 1)
  | none =>
  match rule4Match content with
  | some (m1, m2, m3, m4, m5, m6) =>
    (normalize { id := some (some (Int.ofNat
                   (match m1 with | some dg => parseIntDigits dg | none => ctr))),
                 terminal := some (some (Int.ofNat
                   (match m2 with | some dg => parseIntDigits dg | none => term))),
                 device_timestamp := m3.map String.mk,
                 level := some (String.mk m4), tag := m5.map String.mk,
                 message := some (String.mk m6),
                 raw := some (String.mk line) } storeLen,
     match m1 with | some _ => ctr | none => ctr + 1)
  | none =>
    (normalize { id := some (some (Int.ofNat ctr)),
                 terminal := some (some (Int.ofNat term)),
                 level := some "raw", message := some (String.mk content),
                 raw := some (String.mk line) } storeLen, ctr + 1)

def parseTextGo (storeLen : Nat) : Nat → List (List Char) → List Entry
  | _, [] => []
  | ctr, l :: ls =>
    let p := parseTextLine storeLen ctr l
    p.1 :: parseTextGo storeLen p.2 ls

/-- log-io.js:107 `parseText`. -/
def parseText (text : String) (storeLen : Nat) : List Entry :=
  parseTextGo storeLen 0
    ((splitNl (normNl text.data)).filter (fun l => !(jsTrim l).isEmpty))

/-! ## Engine state (log-engine.js:15 `state`), the visibility predicate
(log-engine.js:34 `matches`), streaming append (log-engine.js:89
`appendEntry`), clear (log-engine.js:112 `clearLogs`) and the import
coordinator (log-io.js:176 `importLogs`, from the point where the file text
is in hand — dialogs and file I/O are external collaborators). -/

/-- A compiled `RegExp` object with the `g` flag: the pattern plus its
mutable `lastIndex` cursor.  Matching is modelled for literal patterns,
compared case-insensitively (exactly the patterns find-mode compiles:
user text with regex metacharacters escaped, flags `gi`). -/
structure RegexObj where
  pattern : String
  lastIndex : Nat
deriving DecidableEq, Repr

/-- First index `≥ k` (in `s`, counted from the start of `s`) at which `p`
occurs; `none` if it never does. -/
def findIdxFrom (p s : List Char) (k : Nat) : Option Nat :=
  go p (s.drop k) k
where
  go (p : List Char) : List Char → Nat → Option Nat
    | [], i => if p.isEmpty then some i else none
    | t@(_ :: rest), i => if p.isPrefixOf t then some i else go p rest (i + 1)

/-- `RegExp.prototype.test` for a global regex: search from `lastIndex`;
on success advance `lastIndex` past the match, on failure reset it to 0. -/
def regexTestG (r : RegexObj) (s : String) : Bool × RegexObj :=
  match findIdxFrom (r.pattern.data.map charLower) (s.data.map charLower) r.lastIndex with
  | some i => (true, { r with lastIndex := i + r.pattern.length })
  | none => (false, { r with lastIndex := 0 })

/-- The session state of log-engine.js:15.  JS `Set`s and the terminal
`Map` are insertion-ordered; they are modelled as duplicate-free lists
resp. association lists. -/
structure EngineState where
  logs : List Entry
  tags : List String
  activeTags : List String
  excludedTags : List String
  enabledLevels : List String
  searchRe : Option RegexObj
  autoScroll : Bool
  terminals : List (JNum × Nat)
  activeTerminals : Option (List JNum)
  searchMode : String
  searchMatches : List (Option JNum)
  searchCurrent : Int
deriving DecidableEq, Repr

/-- The initial state literal of log-engine.js:15. -/
def initialState : EngineState :=
  { logs := [], tags := [], activeTags := [], excludedTags := [],
    enabledLevels := LEVELS, searchRe := none, autoScroll := true,
    terminals := [], activeTerminals := none, searchMode := "find",
    searchMatches := [], searchCurrent := -1 }

/-- JS `Set.prototype.add` (no-op when present, else append in order). -/
def setAdd (l : List String) (x : String) : List String :=
  if l.contains x then l else l ++ [x]

/-- `Map.prototype.has`. -/
def mapHas : List (JNum × Nat) → JNum → Bool
  | [], _ => false
  | p :: rest, k => p.1 == k || mapHas rest k

/-- `Map.prototype.get` (total here: every read in the source is preceded
by a `set` of the same key). -/
def mapGet : List (JNum × Nat) → JNum → Nat
  | [], _ => 0
  | p :: rest, k => if p.1 == k then p.2 else mapGet rest k

/-- `Map.prototype.set`: update the (unique) existing binding in place, or
append a new key in insertion order. -/
def mapSet : List (JNum × Nat) → JNum → Nat → List (JNum × Nat)
  | [], k, v => [(k, v)]
  | p :: rest, k, v => if p.1 == k then (k, v) :: rest else p :: mapSet rest k v

/-- Truthiness of an entry's tag (`e.tag && ...`). -/
def tagTruthy (t : Option String) : Bool :=
  match t with
  | some s => s ≠ ""
  | none => false

/-- `e.terminal ?? 0`. -/
def termIdOf (e : Entry) : JNum := e.terminal.getD (some 0)

/-- log-engine.js:34 `matches` — the visibility predicate.  It is returned
together with the possibly-updated state: the filter-mode branch calls
`searchRe.test`, which advances the global regex's `lastIndex`. -/
def matchesS (st : EngineState) (e : Entry) : Bool × EngineState :=
  if !(st.enabledLevels.contains e.level) then (false, st)
  else if tagTruthy e.tag && st.excludedTags.contains (e.tag.getD "") then (false, st)
  else if st.activeTags.length > 0 &&
          !(match e.tag with
            | some t => st.activeTags.contains t
            | none => false) then (false, st)
  else
    let afterSearch : Bool × EngineState :=
      if st.searchMode == "filter" then
        match st.searchRe with
        | some r =>
          let p := regexTestG r e.raw
          (p.1, { st with searchRe := some p.2 })
        | none => (true, st)
      else (true, st)
    if !afterSearch.1 then (false, afterSearch.2)
    else
      match st.activeTerminals with
      | none => (true, afterSearch.2)
      | some sel => (sel.contains (termIdOf e), afterSearch.2)

/-- log-engine.js:46 `renderLine`, restricted to its engine-state effect:
the produced HTML goes to the DOM, but the highlight step
`msg.replace(state.searchRe, ...)` runs `String.prototype.replace` with
the g-flagged regex, which zeroes `lastIndex` before matching and whose
final failing match attempt zeroes it again — so whenever a pattern is
compiled its cursor ends at 0. -/
def renderLineS (st : EngineState) : EngineState :=
  match st.searchRe with
  | some r => { st with searchRe := some { r with lastIndex := 0 } }
  | none => st

/-- The `if (matches(e)) { ... renderLine(e) ... }` block of
log-engine.js:102-107: the visibility check always runs (mutating the
filter regex's cursor in filter mode); the render — and with it the
cursor reset of its `String.replace` — runs only when the entry is
visible. -/
def appendView (st : EngineState) (e : Entry) : EngineState :=
  if (matchesS st e).1 then renderLineS (matchesS st e).2 else (matchesS st e).2

/-- log-engine.js:89 `appendEntry` (the DOM insertion itself is external;
the `matches(e)` call that gates it and the `renderLine(e)` highlight
replace keep their regex-state effects). -/
def appendEntry (e : Entry) (st : EngineState) : EngineState × Bool × Bool :=
  let isNewTag := tagTruthy e.tag && !(st.tags.contains (e.tag.getD ""))
  let tags1 := if tagTruthy e.tag then setAdd st.tags (e.tag.getD "") else st.tags
  let termId := termIdOf e
  let isNewTerminal := !(mapHas st.terminals termId)
  let terms1 := if mapHas st.terminals termId then st.terminals
                else mapSet st.terminals termId 0
  let terms2 := mapSet terms1 termId (mapGet terms1 termId + 1)
  let st1 := { st with logs := st.logs ++ [e], tags := tags1, terminals := terms2 }
  (appendView st1 e, isNewTag, isNewTerminal)

/-- log-engine.js:112 `clearLogs` (the log area's DOM reset is external). -/
def clearLogs (st : EngineState) : EngineState :=
  { st with logs := [], tags := [], activeTags := [], excludedTags := [],
            terminals := [], activeTerminals := none, searchRe := none,
            searchMatches := [], searchCurrent := -1 }

/-- log-engine.js:125 `setSearch`: compile the pattern, or clear it; an
invalid pattern is caught and treated as no pattern (the literal-pattern
model compiles everything, so the catch branch is only reachable for the
empty string here). -/
def setSearch (val : String) (st : EngineState) : EngineState :=
  { st with searchRe := if val = "" then none else some { pattern := val, lastIndex := 0 } }

/-- Outcome of an import: an uncaught throw (unknown format name), an
alerted abort (parse failure / zero entries), or success with the entry
count and the number of times each callback fired. -/
inductive ImportOutcome where
  | thrown (msg : String)
  | aborted (msg : String)
  | done (count tagsNotifs termNotifs countNotifs : Nat)
deriving DecidableEq, Repr

/-- Did the import stop without loading anything? -/
def ImportOutcome.failed : ImportOutcome → Bool
  | .thrown _ => true
  | .aborted _ => true
  | .done _ _ _ _ => false

/-- The bulk-load loop of log-io.js:225-237, threading the accumulated
`newTags` / `newTerminals` flags. -/
def bulkLoad : List Entry → EngineState → Bool → Bool → EngineState × Bool × Bool
  | [], st, nt, nm => (st, nt, nm)
  | e :: es, st, nt, nm =>
    let tagNew := tagTruthy e.tag && !(st.tags.contains (e.tag.getD ""))
    let tags1 := if tagNew then st.tags ++ [e.tag.getD ""] else st.tags
    let termId := termIdOf e
    let termNew := !(mapHas st.terminals termId)
    let terms1 := if termNew then mapSet st.terminals termId 0 else st.terminals
    let terms2 := mapSet terms1 termId (mapGet terms1 termId + 1)
    bulkLoad es { st with logs := st.logs ++ [e], tags := tags1, terminals := terms2 }
      (nt || tagNew) (nm || termNew)

/-- The parser dispatch `parsers[format]` (log-io.js:174/204).  `jsonV` is
the platform `JSON.parse` of the text (`none` = syntax error); `none`
overall means the format name is unknown. -/
def parsersApply (format : String) (jsonV : Option JVal) (text : String)
    (storeLen : Nat) : Option (Except String (List Entry)) :=
  if format = "json" then
    some (match jsonV with
          | none => .error "SyntaxError"
          | some v => parseJSON v storeLen)
  else if format = "csv" then some (parseCSV text storeLen)
  else if format = "txt" then some (.ok (parseText text storeLen))
  else none

/-- log-io.js:176 `importLogs`, from the parser lookup on (the text is in
hand; dialog cancellation already returned).  Parsing happens against the
pre-clear store (`normalize`'s id fallback reads `state.logs.length`
before `clearLogs` runs); the single post-load `rebuild` cannot touch
engine state because `clearLogs` just nulled `searchRe`; all three
callbacks are taken as provided (as by the app's import menu handler). -/
def importLogs (format : String) (jsonV : Option JVal) (text : String)
    (st : EngineState) : EngineState × ImportOutcome :=
  match parsersApply format jsonV text st.logs.length with
  | none => (st, .thrown ("Unknown format: " ++ format))
  | some (.error m) => (st, .aborted ("Failed to parse: " ++ m))
  | some (.ok entries) =>
    if entries.length = 0 then (st, .aborted "No log entries found in file")
    else
      let p := bulkLoad entries (clearLogs st) false false
      (p.1, .done entries.length (if p.2.1 then 1 else 0) (if p.2.2 then 1 else 0) 1)

/-! ## Claim C1 — failed imports leave the store untouched. -/

/-- C1: if an import batch fails to parse (syntax/type error, unknown
format) or parses to zero entries, `importLogs` aborts with the error
surfaced and returns the engine state exactly as it was — logs, tags,
terminal counts and all filter/search fields included; in particular the
clear step never runs before a successful parse. -/
theorem importLogs_failure_leaves_store_untouched
    (format : String) (jsonV : Option JVal) (text : String) (st : EngineState)
    (h : (importLogs format jsonV text st).2.failed = true) :
    (importLogs format jsonV text st).1 = st := by
  unfold importLogs at h ⊢
  cases hp : parsersApply format jsonV text st.logs.length with
  | none => simp [hp]
  | some r =>
    cases r with
    | error m => simp [hp]
    | ok entries =>
      by_cases hlen : entries.length = 0
      · simp [hp, hlen]
      · rw [hp] at h
        simp only [hlen, if_false] at h
        simp [ImportOutcome.failed] at h

/-- A non-initial state used to witness C1: two logs, a tag, a terminal
count, a narrowed level set and a live search. -/
def c1State : EngineState :=
  { initialState with
    logs := [{ level := "info", tag := some "ble", message := "m1", raw := "m1" }],
    tags := ["ble"], terminals := [(some 0, 1)],
    enabledLevels := ["info"], searchMode := "filter",
    searchRe := some { pattern := "m", lastIndex := 0 } }

theorem importLogs_failure_witness :
    (importLogs "json" none "not json" c1State).2.failed = true ∧
    (importLogs "json" none "not json" c1State).1 = c1State :=
  ⟨by decide,
   importLogs_failure_leaves_store_untouched "json" none "not json" c1State (by decide)⟩

/-! ## Claim C7 — one notification cycle per batch import. -/

/-- C7: a successful batch import fires the tags-changed callback at most
once, the terminals-changed callback at most once, and the count-changed
callback exactly once, whatever the batch size and however many distinct
new tags or terminals it introduces. -/
theorem importLogs_batch_notifies_once
    (format : String) (jsonV : Option JVal) (text : String) (st : EngineState)
    (n a b c : Nat)
    (h : (importLogs format jsonV text st).2 = .done n a b c) :
    a ≤ 1 ∧ b ≤ 1 ∧ c = 1 := by
  unfold importLogs at h
  cases hp : parsersApply format jsonV text st.logs.length with
  | none => rw [hp] at h; exact absurd h (by simp)
  | some r =>
    cases r with
    | error m => rw [hp] at h; exact absurd h (by simp)
    | ok entries =>
      rw [hp] at h
      by_cases hlen : entries.length = 0
      · simp [hlen] at h
      · simp only [hlen, if_false] at h
        obtain ⟨-, ha, hb, hc⟩ := ImportOutcome.done.inj h
        refine ⟨?_, ?_, hc.symm⟩
        · subst ha; split <;> omega
        · subst hb; split <;> omega

theorem importLogs_batch_notifies_once_witness : (0 : Nat) ≤ 1 ∧ (1 : Nat) ≤ 1 ∧ (1 : Nat) = 1 :=
  importLogs_batch_notifies_once "txt" none "hello world" initialState 1 0 1 1 (by decide)

/-! ## Claim C9 — what a user-initiated clear actually resets. -/

/-- A state whose enabled-level set has been narrowed by the user. -/
def c9State : EngineState :=
  { initialState with enabledLevels := ["error"], searchMode := "regex" }

/-- C9 counterexample: `clearLogs` does not restore the enabled-levels set
(nor the search mode) to its session-start value, so a state that differs
from the initial one only in those fields is not reset to `initialState`. -/
theorem clearLogs_keeps_enabled_levels :
    (clearLogs c9State).enabledLevels = ["error"] ∧
    initialState.enabledLevels = LEVELS ∧
    clearLogs c9State ≠ initialState := by decide

/-- C9 as amended: `clearLogs` resets the log sequence, tag set, terminal
counts, active/excluded tag sets, active-terminal selection, compiled
search pattern, match list and current-match pointer to their session-start
values, but leaves the enabled-levels set, the search mode and the
auto-scroll flag at their current values. -/
theorem clearLogs_resets_all_but_levels_mode_scroll (st : EngineState) :
    clearLogs st = { initialState with
                       enabledLevels := st.enabledLevels,
                       searchMode := st.searchMode,
                       autoScroll := st.autoScroll } :=
  rfl

/-! ## Claim C6 — the visibility predicate is not pure. -/

/-- A filter-mode state with a compiled pattern, as produced by switching
the search box to filter mode and typing the single letter a. -/
def c6State : EngineState :=
  { initialState with
    searchMode := "filter",
    searchRe := some { pattern := "a", lastIndex := 0 } }

/-- An entry whose raw text matches that pattern exactly once. -/
def c6Entry : Entry := { level := "raw", message := "a", raw := "a" }

/-- C6 (code bug): with a filter-mode pattern compiled, `matches` is not a
pure predicate — the `g`-flagged `searchRe.test` advances the regex's
`lastIndex`, so of two consecutive evaluations on the same entry the first
returns true and mutates the state, and the second returns false. -/
theorem matches_filter_mode_not_pure :
    (matchesS c6State c6Entry).1 = true ∧
    (matchesS c6State c6Entry).2 ≠ c6State ∧
    (matchesS (matchesS c6State c6Entry).2 c6Entry).1 = false := by decide

/-! ## Claim C3 — the Zephyr sample line. -/

def c3Line : String := "[00:29:56.296,813] <inf> ble_manager: IU 3 ON"

/-- C3 counterexample: the captured level abbreviation is not retained —
`normalize` lowercases it and, `inf` not being one of the five canonical
values, stores `raw`. -/
theorem parseText_zephyr_level_not_inf :
    (parseText c3Line 0).map Entry.level = ["raw"] ∧ ("raw" : String) ≠ "inf" := by
  decide

/-- C3 as amended: the sample Zephyr line parses to device_timestamp
`00:29:56.296,813`, tag `ble_manager`, message `IU 3 ON`, and level `raw`:
the captured `inf` is clamped to `raw` by `normalize`'s five-value check
rather than kept, and is not expanded through `levelFromAbbrev` either
(which would have produced `info`). -/
theorem parseText_zephyr_line_fields :
    parseText c3Line 0 =
      [{ id := some (some 0), terminal := some (some 0),
         device_timestamp := some "00:29:56.296,813", level := "raw",
         tag := some "ble_manager", message := "IU 3 ON", raw := c3Line }] ∧
    levelFromAbbrev "inf" = "info" := by decide

/-! ## Claim C10 — the footprint of a streaming append. -/

theorem regexTestG_pattern (r : RegexObj) (s : String) :
    ((regexTestG r s).2).pattern = r.pattern := by
  unfold regexTestG
  cases findIdxFrom (r.pattern.data.map charLower) (s.data.map charLower) r.lastIndex <;> rfl

/-- Evaluating the visibility predicate touches nothing but the compiled
regex's cursor: every other state field is returned unchanged and the
pattern itself is preserved. -/
theorem matchesS_frame (st : EngineState) (e : Entry) :
    ((matchesS st e).2).logs = st.logs ∧
    ((matchesS st e).2).tags = st.tags ∧
    ((matchesS st e).2).activeTags = st.activeTags ∧
    ((matchesS st e).2).excludedTags = st.excludedTags ∧
    ((matchesS st e).2).enabledLevels = st.enabledLevels ∧
    ((matchesS st e).2).autoScroll = st.autoScroll ∧
    ((matchesS st e).2).terminals = st.terminals ∧
    ((matchesS st e).2).activeTerminals = st.activeTerminals ∧
    ((matchesS st e).2).searchMode = st.searchMode ∧
    ((matchesS st e).2).searchMatches = st.searchMatches ∧
    ((matchesS st e).2).searchCurrent = st.searchCurrent ∧
    ((matchesS st e).2).searchRe.map RegexObj.pattern =
      st.searchRe.map RegexObj.pattern := by
  unfold matchesS
  repeat' split
  all_goals simp_all [regexTestG_pattern, apply_ite]

/-- The render step touches nothing but the compiled pattern's cursor,
and keeps the pattern itself. -/
theorem renderLineS_frame (st : EngineState) :
    (renderLineS st).logs = st.logs ∧
    (renderLineS st).tags = st.tags ∧
    (renderLineS st).activeTags = st.activeTags ∧
    (renderLineS st).excludedTags = st.excludedTags ∧
    (renderLineS st).enabledLevels = st.enabledLevels ∧
    (renderLineS st).autoScroll = st.autoScroll ∧
    (renderLineS st).terminals = st.terminals ∧
    (renderLineS st).activeTerminals = st.activeTerminals ∧
    (renderLineS st).searchMode = st.searchMode ∧
    (renderLineS st).searchMatches = st.searchMatches ∧
    (renderLineS st).searchCurrent = st.searchCurrent ∧
    (renderLineS st).searchRe.map RegexObj.pattern =
      st.searchRe.map RegexObj.pattern := by
  rcases hsr : st.searchRe with - | r
  · simp [renderLineS, hsr]
  · simp [renderLineS, hsr]

/-- The gated visibility-check-then-render block touches nothing but the
compiled pattern's cursor, and keeps the pattern itself. -/
theorem appendView_frame (st : EngineState) (e : Entry) :
    (appendView st e).logs = st.logs ∧
    (appendView st e).tags = st.tags ∧
    (appendView st e).activeTags = st.activeTags ∧
    (appendView st e).excludedTags = st.excludedTags ∧
    (appendView st e).enabledLevels = st.enabledLevels ∧
    (appendView st e).autoScroll = st.autoScroll ∧
    (appendView st e).terminals = st.terminals ∧
    (appendView st e).activeTerminals = st.activeTerminals ∧
    (appendView st e).searchMode = st.searchMode ∧
    (appendView st e).searchMatches = st.searchMatches ∧
    (appendView st e).searchCurrent = st.searchCurrent ∧
    (appendView st e).searchRe.map RegexObj.pattern =
      st.searchRe.map RegexObj.pattern := by
  obtain ⟨m1, m2, m3, m4, m5, m6, m7, m8, m9, m10, m11, m12⟩ := matchesS_frame st e
  unfold appendView
  by_cases hb : (matchesS st e).1 = true
  · rw [if_pos hb]
    obtain ⟨r1, r2, r3, r4, r5, r6, r7, r8, r9, r10, r11, r12⟩ :=
      renderLineS_frame (matchesS st e).2
    exact ⟨r1.trans m1, r2.trans m2, r3.trans m3, r4.trans m4, r5.trans m5,
      r6.trans m6, r7.trans m7, r8.trans m8, r9.trans m9, r10.trans m10,
      r11.trans m11, r12.trans m12⟩
  · rw [if_neg hb]
    exact ⟨m1, m2, m3, m4, m5, m6, m7, m8, m9, m10, m11, m12⟩

theorem beq_jnum_iff (a b : JNum) : (a == b) = true ↔ a = b := by
  exact beq_iff_eq

theorem mapGet_eq_zero_of_not_has (m : List (JNum × Nat)) (k : JNum)
    (h : mapHas m k = false) : mapGet m k = 0 := by
  induction m with
  | nil => rfl
  | cons p rest ih =>
    simp only [mapHas, Bool.or_eq_false_iff] at h
    simp only [mapGet, h.1, if_false, Bool.false_eq_true]
    exact ih h.2

theorem mapGet_mapSet_self (m : List (JNum × Nat)) (k : JNum) (v : Nat) :
    mapGet (mapSet m k v) k = v := by
  induction m with
  | nil => simp [mapSet, mapGet]
  | cons p rest ih =>
    by_cases hpk : (p.1 == k) = true
    · simp [mapSet, hpk, mapGet]
    · simp [mapSet, hpk, mapGet, ih]

theorem mapGet_mapSet_other (m : List (JNum × Nat)) (k k' : JNum) (v : Nat)
    (hne : k' ≠ k) : mapGet (mapSet m k v) k' = mapGet m k' := by
  have hkk : (k == k') = false := by
    rw [beq_eq_false_iff_ne]
    exact fun hc => hne hc.symm
  induction m with
  | nil => simp [mapSet, mapGet, hkk]
  | cons p rest ih =>
    by_cases hpk : (p.1 == k) = true
    · have hp : p.1 = k := by rwa [beq_jnum_iff] at hpk
      simp [mapSet, hpk, mapGet, hkk, hp]
    · simp only [mapSet, hpk, if_false, Bool.false_eq_true]
      by_cases hpk' : (p.1 == k') = true
      · simp [mapGet, hpk']
      · simp [mapGet, hpk', ih]

/-- A filter-mode state used to exhibit the `lastIndex` mutation: a
compiled pattern with its cursor at 0, and an active-terminal selection
that hides terminal 0. -/
def c10State : EngineState :=
  { initialState with
    searchMode := "filter",
    searchRe := some { pattern := "b", lastIndex := 0 },
    activeTerminals := some [some 1] }

def c10Entry : Entry := { level := "raw", message := "b", raw := "b" }

/-- C10 counterexample: `appendEntry` does not leave the search
configuration untouched.  The `matches(e)` call that gates the DOM append
runs the g-flagged `searchRe.test`, advancing the compiled pattern's
`lastIndex` past the match; the active-terminal check then hides the
entry, so `renderLine` — whose global `String.replace` would have reset
the cursor to 0 — never runs, and `appendEntry` returns with the cursor
left advanced. -/
theorem appendEntry_mutates_lastIndex :
    ((appendEntry c10Entry c10State).1).searchRe ≠ c10State.searchRe := by decide

/-- C10 as amended: `appendEntry` appends `e` verbatim to the log
sequence; adds its tag to the tag set only when truthy; bumps exactly the
count of `e`'s terminal (defaulting the key to 0) by one, leaving every
other terminal count unchanged; leaves the whole filter configuration and
the search configuration unchanged except for the compiled pattern's
internal `lastIndex` cursor (the filter-mode visibility test moves it,
and when the entry is displayed the render step's global `String.replace`
zeroes it; the pattern itself is preserved); and returns `isNewTag` true
iff `e` has a truthy tag absent from the tag set before the call,
`isNewTerminal` true iff `e`'s terminal key was absent from the count map
before the call. -/
theorem appendEntry_frame (e : Entry) (st : EngineState) :
    ((appendEntry e st).1).logs = st.logs ++ [e] ∧
    ((appendEntry e st).1).tags =
      (if tagTruthy e.tag then setAdd st.tags (e.tag.getD "") else st.tags) ∧
    mapGet ((appendEntry e st).1).terminals (termIdOf e) =
      mapGet st.terminals (termIdOf e) + 1 ∧
    (∀ k, k ≠ termIdOf e →
      mapGet ((appendEntry e st).1).terminals k = mapGet st.terminals k) ∧
    ((appendEntry e st).1).activeTags = st.activeTags ∧
    ((appendEntry e st).1).excludedTags = st.excludedTags ∧
    ((appendEntry e st).1).enabledLevels = st.enabledLevels ∧
    ((appendEntry e st).1).activeTerminals = st.activeTerminals ∧
    ((appendEntry e st).1).searchMode = st.searchMode ∧
    ((appendEntry e st).1).searchMatches = st.searchMatches ∧
    ((appendEntry e st).1).searchCurrent = st.searchCurrent ∧
    ((appendEntry e st).1).autoScroll = st.autoScroll ∧
    ((appendEntry e st).1).searchRe.map RegexObj.pattern =
      st.searchRe.map RegexObj.pattern ∧
    (appendEntry e st).2.1 =
      (tagTruthy e.tag && !(st.tags.contains (e.tag.getD ""))) ∧
    (appendEntry e st).2.2 = !(mapHas st.terminals (termIdOf e)) := by
  unfold appendEntry
  have hm := appendView_frame
    { st with
      logs := st.logs ++ [e],
      tags := if tagTruthy e.tag then setAdd st.tags (e.tag.getD "") else st.tags,
      terminals :=
        mapSet (if mapHas st.terminals (termIdOf e) then st.terminals
                else mapSet st.terminals (termIdOf e) 0) (termIdOf e)
          (mapGet (if mapHas st.terminals (termIdOf e) then st.terminals
                   else mapSet st.terminals (termIdOf e) 0) (termIdOf e) + 1) }
    e
  obtain ⟨h1, h2, h3, h4, h5, h6, h7, h8, h9, h10, h11, h12⟩ := hm
  refine ⟨by simpa using h1, by simpa using h2, ?_, ?_,
    by simpa using h3, by simpa using h4, by simpa using h5,
    by simpa using h8, by simpa using h9, by simpa using h10,
    by simpa using h11, by simpa using h6, by simpa using h12, rfl, rfl⟩
  · rw [h7]
    by_cases hh : mapHas st.terminals (termIdOf e) = true
    · rw [if_pos hh, mapGet_mapSet_self]
    · rw [if_neg hh, mapGet_mapSet_self, mapGet_mapSet_self,
        mapGet_eq_zero_of_not_has st.terminals (termIdOf e) (by simpa using hh)]
  · intro k hk
    rw [h7]
    by_cases hh : mapHas st.terminals (termIdOf e) = true
    · rw [if_pos hh, mapGet_mapSet_other _ _ _ _ hk]
    · rw [if_neg hh, mapGet_mapSet_other _ _ _ _ hk, mapGet_mapSet_other _ _ _ _ hk]

/-! ## Claim C4 — every parser output has an enumerated level. -/

theorem parseTextLine_is_normalize (storeLen ctr : Nat) (l : List Char) :
    ∃ c, (parseTextLine storeLen ctr l).1 = normalize c storeLen := by
  simp only [parseTextLine]
  repeat' split
  all_goals exact ⟨_, rfl⟩

theorem parseTextGo_mem_normalize (storeLen : Nat) (ls : List (List Char)) :
    ∀ (ctr : Nat) (e : Entry),
      e ∈ parseTextGo storeLen ctr ls → ∃ c, e = normalize c storeLen := by
  induction ls with
  | nil => intro ctr e he; simp [parseTextGo] at he
  | cons l rest ih =>
    intro ctr e he
    simp only [parseTextGo] at he
    rcases List.mem_cons.mp he with h | h
    · obtain ⟨c, hc⟩ := parseTextLine_is_normalize storeLen ctr l
      exact ⟨c, h ▸ hc⟩
    · exact ih _ _ h

theorem parseJSON_ok (v : JVal) (n : Nat) (entries : List Entry)
    (h : parseJSON v n = .ok entries) :
    ∃ cs : List Candidate, entries = cs.map (fun c => normalize c n) := by
  cases v with
  | arr xs =>
    unfold parseJSON at h
    cases hm : mapCandidates xs with
    | some cs =>
      simp only [hm] at h
      refine ⟨cs, ?_⟩
      injection h with h2
      exact h2.symm
    | none => simp only [hm] at h; exact absurd h (by simp)
  | null => simp [parseJSON] at h
  | bool b => simp [parseJSON] at h
  | num m => simp [parseJSON] at h
  | str s => simp [parseJSON] at h
  | obj fs => simp [parseJSON] at h

theorem parseCSV_ok (text : String) (n : Nat) (entries : List Entry)
    (h : parseCSV text n = .ok entries) :
    ∃ (header : List String) (rows : List (List Char)), entries = rows.map
      (fun line => normalize (candidateOfCSV header (parseCSVRow line)) n) := by
  unfold parseCSV at h
  cases hs : splitCSVLines text with
  | nil => rw [hs] at h; exact absurd h (by simp)
  | cons hd rest =>
    cases rest with
    | nil => rw [hs] at h; exact absurd h (by simp)
    | cons r1 r2 =>
      rw [hs] at h
      refine ⟨parseCSVRow hd, (r1 :: r2).filter (fun l => !(jsTrim l).isEmpty), ?_⟩
      injection h with h2
      exact h2.symm

/-- C4: whichever parser runs (JSON, CSV or plain text), every entry it
produces carries a level from the five-value enumeration
{error, warn, info, debug, raw} — never any other value (every parser
funnels each record through `normalize`, which clamps the level). -/
theorem parsers_level_enum (format : String) (jsonV : Option JVal)
    (text : String) (storeLen : Nat) (entries : List Entry)
    (h : parsersApply format jsonV text storeLen = some (.ok entries)) :
    ∀ e ∈ entries, e.level ∈ LEVELS := by
  unfold parsersApply at h
  by_cases hj : format = "json"
  · rw [if_pos hj] at h
    injection h with h
    cases jsonV with
    | none => exact absurd h (by simp)
    | some v =>
      obtain ⟨cs, hcs⟩ := parseJSON_ok v storeLen entries h
      intro e he
      rw [hcs] at he
      obtain ⟨c, -, hc⟩ := List.mem_map.mp he
      exact hc ▸ normalize_level_mem c storeLen
  · rw [if_neg hj] at h
    by_cases hc : format = "csv"
    · rw [if_pos hc] at h
      injection h with h
      obtain ⟨header, rows, hrows⟩ := parseCSV_ok text storeLen entries h
      intro e he
      rw [hrows] at he
      obtain ⟨line, -, hl⟩ := List.mem_map.mp he
      exact hl ▸ normalize_level_mem _ storeLen
    · rw [if_neg hc] at h
      by_cases ht : format = "txt"
      · rw [if_pos ht] at h
        injection h with h
        injection h with h
        intro e he
        rw [← h] at he
        obtain ⟨c, hc2⟩ := parseTextGo_mem_normalize storeLen _ _ e he
        exact hc2 ▸ normalize_level_mem c storeLen
      · rw [if_neg ht] at h
        exact absurd h (by simp)

def c4Entry : Entry :=
  { id := some (some 0), terminal := some (some 0), device_timestamp := none,
    level := "raw", tag := none, message := "hi", raw := "hi" }

theorem parsers_level_enum_witness : c4Entry.level ∈ LEVELS := by
  have h := parsers_level_enum "txt" none "hi" 0 (parseText "hi" 0) (by rfl)
  exact h c4Entry (by decide)

/-! ## Claim C5 — ids synthesized for id-less imports are not sequential. -/

/-- The entry every id-less element of a JSON batch normalizes to when the
store holds five entries at parse time. -/
def c5Entry : Entry :=
  { id := some (some 5), terminal := some (some 0), device_timestamp := none,
    level := "raw", tag := none, message := "", raw := "" }

/-- C5 counterexample: a JSON array of two objects, neither carrying an id,
parsed over a store of length 5 — both entries get the same id 5 (the store
length at parse time), not two distinct, sequentially increasing ids. -/
theorem parseJSON_missing_ids_share_one_id :
    parseJSON (.arr [.obj [], .obj []]) 5 = .ok [c5Entry, c5Entry] ∧
    c5Entry.id = some (some 5) :=
  ⟨rfl, rfl⟩

theorem candidateOfJV_id_none (v : JVal) (c : Candidate)
    (h : candidateOfJV v = some c) (hid : (jvGet v "id").isNull = true) :
    c.id = none := by
  unfold candidateOfJV at h
  cases v
  case null => exact absurd h (by simp)
  all_goals repeat' split at h
  all_goals try (replace h := Option.some.inj h; subst h)
  all_goals simp_all

theorem mapCandidates_mem (vs : List JVal) (cs : List Candidate)
    (h : mapCandidates vs = some cs) :
    ∀ c ∈ cs, ∃ v ∈ vs, candidateOfJV v = some c := by
  induction vs generalizing cs with
  | nil =>
    unfold mapCandidates at h
    rw [← Option.some.inj h]
    intro c hc
    simp at hc
  | cons v rest ih =>
    unfold mapCandidates at h
    cases hv : candidateOfJV v with
    | none => rw [hv] at h; simp at h
    | some c0 =>
      cases hr : mapCandidates rest with
      | none => rw [hv, hr] at h; simp at h
      | some cs0 =>
        rw [hv, hr] at h
        rw [← Option.some.inj h]
        intro c hc
        rcases List.mem_cons.mp hc with hc | hc
        · exact ⟨v, List.mem_cons_self v rest, hc ▸ hv⟩
        · obtain ⟨v', hv', h'⟩ := ih cs0 hr c hc
          exact ⟨v', List.mem_cons_of_mem v hv', h'⟩

theorem csvPairs_fst_mem (hs : List String) :
    ∀ (vs : List String) (p : String × String), p ∈ csvPairs hs vs → p.1 ∈ hs := by
  induction hs with
  | nil => intro vs p hp; simp [csvPairs] at hp
  | cons h rest ih =>
    intro vs p hp
    simp only [csvPairs] at hp
    rcases List.mem_cons.mp hp with hp | hp
    · rw [hp]; exact List.mem_cons_self h rest
    · exact List.mem_cons_of_mem h (ih vs.tail p hp)

theorem csvLookup_eq_none_of_not_mem (hs vs : List String) (k : String)
    (hk : k ∉ hs) : csvLookup hs vs k = none := by
  unfold csvLookup
  rw [List.find?_eq_none.mpr]
  · rfl
  · intro p hp
    rw [List.mem_reverse] at hp
    have hmem : p.1 ∈ hs := csvPairs_fst_mem hs vs p hp
    simp only [decide_eq_true_eq]
    intro hc
    exact hk (hc ▸ hmem)

/-- C5 as amended: when entries of an imported JSON array (or CSV file
without an id column) lack ids, the parse does not number them
sequentially — every such entry receives the same fallback id, namely the
length the store had when the import started (sequential synthesis exists
only in the plain-text parser's line counter). -/
theorem import_missing_ids_get_store_length (n : Nat) :
    (∀ vs es, parseJSON (.arr vs) n = .ok es →
        (∀ v ∈ vs, (jvGet v "id").isNull = true) →
        ∀ e ∈ es, e.id = some (some (Int.ofNat n))) ∧
    (∀ text hd rest es, splitCSVLines text = hd :: rest →
        "id" ∉ parseCSVRow hd →
        parseCSV text n = .ok es →
        ∀ e ∈ es, e.id = some (some (Int.ofNat n))) := by
  constructor
  · intro vs es h hno e he
    unfold parseJSON at h
    cases hm : mapCandidates vs with
    | none => simp only [hm] at h; exact absurd h (by simp)
    | some cs =>
      simp only [hm] at h
      rw [← Except.ok.inj h] at he
      obtain ⟨c, hcmem, hc⟩ := List.mem_map.mp he
      obtain ⟨v, hvmem, hv⟩ := mapCandidates_mem vs cs hm c hcmem
      have hcid : c.id = none := candidateOfJV_id_none v c hv (hno v hvmem)
      rw [← hc]
      simp [normalize, hcid]
  · intro text hd rest es hsplit hnoid h e he
    unfold parseCSV at h
    rw [hsplit] at h
    cases rest with
    | nil => exact absurd h (by simp)
    | cons r1 r2 =>
      rw [← Except.ok.inj h] at he
      obtain ⟨line, -, hl⟩ := List.mem_map.mp he
      have hlid : (candidateOfCSV (parseCSVRow hd) (parseCSVRow line)).id = none := by
        unfold candidateOfCSV
        rw [csvLookup_eq_none_of_not_mem _ _ _ hnoid]
        rfl
      rw [← hl]
      simp [normalize, hlid]

def c5CsvEntry : Entry :=
  { id := some (some 7), terminal := some (some 0), device_timestamp := none,
    level := "info", tag := none, message := "hi", raw := "hi" }

theorem import_missing_ids_witness :
    c5Entry.id = some (some 5) ∧ c5CsvEntry.id = some (some 7) := by
  constructor
  · exact (import_missing_ids_get_store_length 5).1 [.obj [], .obj []]
      [c5Entry, c5Entry] rfl (by intro v hv; fin_cases hv <;> decide)
      c5Entry (by decide)
  · exact (import_missing_ids_get_store_length 7).2 "level,message\ninfo,hi"
      "level,message".data ["info,hi".data] [c5CsvEntry] rfl (by decide)
      rfl c5CsvEntry (by decide)

/-! ## Claim C2 — CSV export → import round trip.
Generic helpers about trimming, digits and `String(n)`/`Number(s)`. -/

theorem mem_dropWhile_of_not (p : Char → Bool) (c : Char) (hp : p c = false) :
    ∀ l : List Char, c ∈ l → c ∈ l.dropWhile p := by
  intro l
  induction l with
  | nil => intro h; cases h
  | cons a t ih =>
    intro hc
    by_cases ha : p a = true
    · rw [List.dropWhile_cons_of_pos ha]
      rcases List.mem_cons.mp hc with h | h
      · subst h; rw [hp] at ha; cases ha
      · exact ih h
    · rw [List.dropWhile_cons_of_neg ha]
      exact hc

theorem dropWhile_eq_self_of_none (p : Char → Bool) (l : List Char)
    (h : ∀ c ∈ l, p c = false) : l.dropWhile p = l := by
  cases l with
  | nil => rfl
  | cons a t => exact List.dropWhile_cons_of_neg (by simp [h a (List.mem_cons_self a t)])

theorem jsTrim_of_no_ws (l : List Char) (h : ∀ c ∈ l, jsWs c = false) :
    jsTrim l = l := by
  unfold jsTrim
  rw [dropWhile_eq_self_of_none _ _ h,
      dropWhile_eq_self_of_none _ _ (fun c hc => h c (List.mem_reverse.mp hc)),
      List.reverse_reverse]

theorem jsTrim_ne_nil (l : List Char) (c : Char) (hc : c ∈ l)
    (hw : jsWs c = false) : jsTrim l ≠ [] := by
  unfold jsTrim
  intro hnil
  rw [List.reverse_eq_nil_iff] at hnil
  have h1 : c ∈ (l.dropWhile jsWs).reverse :=
    List.mem_reverse.mpr (mem_dropWhile_of_not jsWs c hw l hc)
  have h2 := mem_dropWhile_of_not jsWs c hw _ h1
  rw [hnil] at h2
  cases h2

theorem digitChar_isDigit (m : Nat) : (digitChar m).isDigit = true := by
  rcases m with _|_|_|_|_|_|_|_|_|_ <;> rfl

theorem isDigit_ne (c d : Char) (h : c.isDigit = true) (hd : d.isDigit = false) :
    c ≠ d := by
  intro heq
  subst heq
  rw [h] at hd
  cases hd

theorem isDigit_not_ws (c : Char) (h : c.isDigit = true) : jsWs c = false := by
  by_contra hw
  rw [Bool.not_eq_false] at hw
  simp only [jsWs, Bool.or_eq_true, decide_eq_true_eq] at hw
  rcases hw with ((((h1 | h1) | h1) | h1) | h1) | h1 <;>
    (subst h1; exact absurd h (by decide))

theorem digitVal_digitChar (m : Nat) (h : m < 10) : digitVal (digitChar m) = m := by
  interval_cases m <;> decide

theorem parseIntDigits_concat (l : List Char) (c : Char) :
    parseIntDigits (l ++ [c]) = parseIntDigits l * 10 + digitVal c := by
  unfold parseIntDigits
  rw [List.foldl_append]
  rfl

theorem natCharsFuel_spec (fuel : Nat) : ∀ m, m < fuel →
    natCharsFuel fuel m ≠ [] ∧ (∀ c ∈ natCharsFuel fuel m, c.isDigit = true) ∧
    parseIntDigits (natCharsFuel fuel m) = m := by
  induction fuel with
  | zero => intro m h; exact absurd h (by omega)
  | succ fuel ih =>
    intro m h
    by_cases h10 : m < 10
    · rw [show natCharsFuel (fuel + 1) m = [digitChar m] from by
        simp [natCharsFuel, h10]]
      refine ⟨by simp, ?_, ?_⟩
      · intro c hc
        rw [List.mem_singleton.mp hc]
        exact digitChar_isDigit m
      · show parseIntDigits ([] ++ [digitChar m]) = m
        rw [parseIntDigits_concat]
        simp [parseIntDigits, digitVal_digitChar m h10]
    · rw [show natCharsFuel (fuel + 1) m =
          natCharsFuel fuel (m / 10) ++ [digitChar (m % 10)] from by
        simp [natCharsFuel, h10]]
      have hdiv : m / 10 < fuel := by
        have := Nat.div_lt_self (show 0 < m by omega) (show 1 < 10 by omega)
        omega
      obtain ⟨hne, hdig, hval⟩ := ih (m / 10) hdiv
      refine ⟨by simp, ?_, ?_⟩
      · intro c hc
        rcases List.mem_append.mp hc with hc | hc
        · exact hdig c hc
        · rw [List.mem_singleton.mp hc]
          exact digitChar_isDigit _
      · rw [parseIntDigits_concat, hval, digitVal_digitChar _ (Nat.mod_lt _ (by omega))]
        omega

theorem natChars_spec (m : Nat) :
    natChars m ≠ [] ∧ (∀ c ∈ natChars m, c.isDigit = true) ∧
    parseIntDigits (natChars m) = m :=
  natCharsFuel_spec (m + 1) m (by omega)

/-- The decimal rendering of a JS number re-parses to the same number:
`Number(String(v)) = v` for integers and `NaN`. -/
theorem jsNumberOfString_jnumToStr (jn : JNum) :
    jsNumberOfString (jnumToStr jn) = jn := by
  cases jn with
  | none => rfl
  | some i =>
    obtain ⟨hne, hdig, hval⟩ := natChars_spec i.natAbs
    by_cases hi : i < 0
    · have hrw : jnumToStr (some i) = "-" ++ String.mk (natChars i.natAbs) := by
        simp [jnumToStr, hi]
      rw [hrw]
      unfold jsNumberOfString
      have hdata : ("-" ++ String.mk (natChars i.natAbs)).data =
          '-' :: natChars i.natAbs := rfl
      rw [hdata, jsTrim_of_no_ws]
      · simp only []
        rw [if_pos ⟨hne, List.all_eq_true.mpr hdig⟩, hval]
        congr 1
        omega
      · intro c hc
        rcases List.mem_cons.mp hc with hc | hc
        · subst hc; decide
        · exact isDigit_not_ws c (hdig c hc)
    · have hrw : jnumToStr (some i) = String.mk (natChars i.natAbs) := by
        simp [jnumToStr, hi]
      rw [hrw]
      unfold jsNumberOfString
      have hdata : (String.mk (natChars i.natAbs)).data = natChars i.natAbs := rfl
      rw [hdata, jsTrim_of_no_ws _ (fun c hc => isDigit_not_ws c (hdig c hc))]
      split
      · exact absurd (by assumption) hne
      case _ ds heq =>
        exact absurd (hdig '-' (heq ▸ List.mem_cons_self '-' ds)) (by decide)
      case _ ds heq =>
        exact absurd (hdig '+' (heq ▸ List.mem_cons_self '+' ds)) (by decide)
      · rw [if_pos (List.all_eq_true.mpr hdig), hval]
        congr 1
        omega

/-- Scan of one logical CSV row by the quote-tracking line splitter: the
final quote state, or `none` if the splitter would split or drop a
character inside the row (an unquoted newline or carriage return). -/
def chunkScan : List Char → Bool → Option Bool
  | [], q => some q
  | c :: r, q =>
    if c = '"' then chunkScan r (!q)
    else if c = '\n' && !q then none
    else if c = '\x0d' && !q then none
    else chunkScan r q

theorem splitCSVAux_chunk (r : List Char) :
    ∀ (q q' : Bool) (s cur : List Char), chunkScan r q = some q' →
      splitCSVAux (r ++ s) q cur = splitCSVAux s q' (cur ++ r) := by
  induction r with
  | nil =>
    intro q q' s cur h
    replace h := Option.some.inj h
    subst h
    simp
  | cons c t ih =>
    intro q q' s cur h
    simp only [chunkScan] at h
    simp only [List.cons_append, splitCSVAux]
    split_ifs at h ⊢
    all_goals first
      | cases h
      | (simp only [List.append_eq]
         rw [ih _ _ _ _ h]
         simp)

theorem splitCSVAux_row_nl (r s cur : List Char)
    (h : chunkScan r false = some false) :
    splitCSVAux (r ++ '\n' :: s) false cur = (cur ++ r) :: splitCSVAux s false [] := by
  rw [splitCSVAux_chunk r false false ('\n' :: s) cur h]
  simp [splitCSVAux]

theorem splitCSVAux_last (r cur : List Char)
    (h : chunkScan r false = some false) (hne : cur ++ r ≠ []) :
    splitCSVAux r false cur = [cur ++ r] := by
  have h2 := splitCSVAux_chunk r false false [] cur h
  rw [List.append_nil] at h2
  rw [h2]
  simp [splitCSVAux, hne]

/-- The quote-tracking splitter undoes `join('\n')` on well-quoted,
nonempty rows. -/
theorem splitCSVAux_joinNl (rows : List (List Char))
    (hgood : ∀ r ∈ rows, chunkScan r false = some false)
    (hne : ∀ r ∈ rows, r ≠ []) :
    splitCSVAux (joinNl rows) false [] = rows := by
  induction rows with
  | nil => rfl
  | cons r rs ih =>
    cases rs with
    | nil =>
      show splitCSVAux (joinNl [r]) false [] = [r]
      simp only [joinNl]
      rw [splitCSVAux_last r [] (hgood r (List.mem_cons_self r [])) (by
        simpa using hne r (List.mem_cons_self r []))]
      simp
    | cons r2 rs2 =>
      show splitCSVAux (r ++ '\n' :: joinNl (r2 :: rs2)) false [] = r :: r2 :: rs2
      rw [splitCSVAux_row_nl _ _ _ (hgood r (List.mem_cons_self r _))]
      simp only [List.nil_append]
      congr 1
      exact ih (fun x hx => hgood x (List.mem_cons_of_mem r hx))
        (fun x hx => hne x (List.mem_cons_of_mem r hx))

/-- Does the text require RFC4180 quoting (the condition of `escCSV`)? -/
theorem escCSV_eq_of_plain (l : List Char)
    (h : (l.contains ',' || l.contains '"' || l.contains '\n') = false) :
    escCSV l = l := by
  unfold escCSV
  rw [if_neg (by rw [h]; simp)]

/-- An unquoted cell passes through `parseCSVRowAux` unchanged. -/
theorem parseRowAux_plain (f : List Char)
    (hf : ∀ c ∈ f, ¬ c = ',' ∧ ¬ c = '"') :
    ∀ (s cur : List Char), parseCSVRowAux (f ++ s) false cur =
      parseCSVRowAux s false (cur ++ f) := by
  induction f with
  | nil => simp
  | cons c t ih =>
    intro s cur
    obtain ⟨hc1, hc2⟩ := hf c (List.mem_cons_self c t)
    show parseCSVRowAux (c :: (t ++ s)) false cur = _
    rw [show parseCSVRowAux (c :: (t ++ s)) false cur =
        parseCSVRowAux (t ++ s) false (cur ++ [c]) by simp [parseCSVRowAux, hc2, hc1]]
    rw [ih (fun x hx => hf x (List.mem_cons_of_mem c hx)) s (cur ++ [c])]
    simp

/-- The doubled-quote body of a quoted cell reconstructs the cell text. -/
theorem parseRowAux_quoted_body (f : List Char) :
    ∀ (s cur : List Char), s.head? ≠ some '"' →
      parseCSVRowAux (dblQuotes f ++ '"' :: s) true cur =
        parseCSVRowAux s false (cur ++ f) := by
  induction f with
  | nil =>
    intro s cur hs
    show parseCSVRowAux ('"' :: s) true cur = _
    cases s with
    | nil => simp [parseCSVRowAux]
    | cons a t =>
      have ha : ¬ a = '"' := by intro hh; subst hh; simp at hs
      simp [parseCSVRowAux, ha]
  | cons c t ih =>
    intro s cur hs
    by_cases hc : c = '"'
    · subst hc
      rw [show dblQuotes ('"' :: t) = '"' :: '"' :: dblQuotes t from by
        simp [dblQuotes]]
      rw [show parseCSVRowAux ('"' :: '"' :: dblQuotes t ++ '"' :: s) true cur =
          parseCSVRowAux (dblQuotes t ++ '"' :: s) true (cur ++ ['"']) from by
        simp [parseCSVRowAux]]
      rw [ih s (cur ++ ['"']) hs]
      simp
    · rw [show dblQuotes (c :: t) = c :: dblQuotes t from by
        simp [dblQuotes, hc]]
      rw [show parseCSVRowAux (c :: dblQuotes t ++ '"' :: s) true cur =
          parseCSVRowAux (dblQuotes t ++ '"' :: s) true (cur ++ [c]) from by
        by_cases hcm : c = ','
        · subst hcm; simp [parseCSVRowAux]
        · simp [parseCSVRowAux, hc, hcm]]
      rw [ih s (cur ++ [c]) hs]
      simp

theorem contains_of_mem (l : List Char) (c : Char) (h : c ∈ l) :
    l.contains c = true :=
  List.elem_eq_true_of_mem h

/-- One escaped cell followed by a cell boundary parses back to the cell. -/
theorem parseRowAux_escCSV (f s cur : List Char) (hs : s.head? ≠ some '"') :
    parseCSVRowAux (escCSV f ++ s) false cur = parseCSVRowAux s false (cur ++ f) := by
  by_cases h : (f.contains ',' || f.contains '"' || f.contains '\n') = true
  · rw [show escCSV f = '"' :: (dblQuotes f ++ ['"']) from by
      unfold escCSV; rw [if_pos h]]
    show parseCSVRowAux ('"' :: ((dblQuotes f ++ ['"']) ++ s)) false cur = _
    rw [show parseCSVRowAux ('"' :: ((dblQuotes f ++ ['"']) ++ s)) false cur =
        parseCSVRowAux ((dblQuotes f ++ ['"']) ++ s) true cur from by
      simp [parseCSVRowAux]]
    rw [List.append_assoc]
    exact parseRowAux_quoted_body f s cur hs
  · rw [escCSV_eq_of_plain f (by simpa using h)]
    apply parseRowAux_plain
    intro c hc
    constructor
    · intro heq
      subst heq
      exact h (by simp; exact Or.inl (Or.inl hc))
    · intro heq
      subst heq
      exact h (by simp; exact Or.inl (Or.inr hc))

/-- A full escaped row parses back to its cells. -/
theorem parseRowAux_joinComma (cells : List (List Char)) (f : List Char) :
    ∀ cur, parseCSVRowAux (joinComma ((f :: cells).map escCSV)) false cur =
      (cur ++ f) :: cells := by
  induction cells generalizing f with
  | nil =>
    intro cur
    have h := parseRowAux_escCSV f [] cur (by simp)
    rw [List.append_nil] at h
    show parseCSVRowAux (escCSV f) false cur = [cur ++ f]
    rw [h]
    rfl
  | cons f2 rest ih =>
    intro cur
    show parseCSVRowAux (escCSV f ++ ',' :: joinComma ((f2 :: rest).map escCSV))
      false cur = _
    rw [parseRowAux_escCSV f _ cur (by simp)]
    rw [show parseCSVRowAux (',' :: joinComma ((f2 :: rest).map escCSV)) false
        (cur ++ f) = (cur ++ f) ::
        parseCSVRowAux (joinComma ((f2 :: rest).map escCSV)) false [] from by
      simp [parseCSVRowAux]]
    rw [ih f2 []]
    simp

theorem parseCSVRow_rowChars (e : Entry) :
    parseCSVRow (rowChars e) = (rowCells e).map String.mk := by
  unfold parseCSVRow rowChars
  rw [show rowCells e = numCell e.id :: [numCell e.terminal,
    strCell e.device_timestamp, e.level.data, strCell e.tag,
    e.message.data] from rfl]
  rw [parseRowAux_joinComma]
  simp

theorem chunkScan_dbl (f : List Char) :
    ∀ t, chunkScan (dblQuotes f ++ t) true = chunkScan t true := by
  induction f with
  | nil => intro t; rfl
  | cons c r ih =>
    intro t
    by_cases hc : c = '"'
    · subst hc
      rw [show dblQuotes ('"' :: r) = '"' :: '"' :: dblQuotes r from by
        simp [dblQuotes]]
      rw [show chunkScan ('"' :: '"' :: dblQuotes r ++ t) true =
          chunkScan (dblQuotes r ++ t) true from by simp [chunkScan]]
      exact ih t
    · rw [show dblQuotes (c :: r) = c :: dblQuotes r from by simp [dblQuotes, hc]]
      rw [show chunkScan (c :: dblQuotes r ++ t) true =
          chunkScan (dblQuotes r ++ t) true from by simp [chunkScan, hc]]
      exact ih t

theorem chunkScan_plain (f : List Char)
    (hf : ∀ c ∈ f, ¬ c = '"' ∧ ¬ c = '\n' ∧ ¬ c = '\x0d') :
    ∀ t q, chunkScan (f ++ t) q = chunkScan t q := by
  induction f with
  | nil => intro t q; rfl
  | cons c r ih =>
    intro t q
    obtain ⟨h1, h2, h3⟩ := hf c (List.mem_cons_self c r)
    rw [show chunkScan (c :: r ++ t) q = chunkScan (r ++ t) q from by
      simp [chunkScan, h1, h2, h3]]
    exact ih (fun x hx => hf x (List.mem_cons_of_mem c hx)) t q

theorem chunkScan_escCSV (f : List Char) (hcr : '\x0d' ∉ f) :
    ∀ t, chunkScan (escCSV f ++ t) false = chunkScan t false := by
  by_cases h : (f.contains ',' || f.contains '"' || f.contains '\n') = true
  · intro t
    rw [show escCSV f = '"' :: (dblQuotes f ++ ['"']) from by
      unfold escCSV; rw [if_pos h]]
    rw [show chunkScan (('"' :: (dblQuotes f ++ ['"'])) ++ t) false =
        chunkScan ((dblQuotes f ++ ['"']) ++ t) true from by simp [chunkScan]]
    rw [List.append_assoc]
    rw [chunkScan_dbl f (['"'] ++ t)]
    simp [chunkScan]
  · intro t
    rw [escCSV_eq_of_plain f (by simpa using h)]
    apply chunkScan_plain
    intro c hc
    refine ⟨?_, ?_, ?_⟩
    · intro heq
      subst heq
      exact h (by simp; exact Or.inl (Or.inr hc))
    · intro heq
      subst heq
      exact h (by simp; exact Or.inr hc)
    · intro heq
      subst heq
      exact hcr hc

theorem chunkScan_joinComma (cells : List (List Char))
    (hcr : ∀ f ∈ cells, '\x0d' ∉ f) :
    chunkScan (joinComma (cells.map escCSV)) false = some false := by
  induction cells with
  | nil => rfl
  | cons f rest ih =>
    cases rest with
    | nil =>
      have h2 := chunkScan_escCSV f (hcr f (List.mem_cons_self f [])) []
      rw [List.append_nil] at h2
      show chunkScan (escCSV f) false = some false
      rw [h2]
      rfl
    | cons f2 rest2 =>
      show chunkScan (escCSV f ++ ',' :: joinComma ((f2 :: rest2).map escCSV))
        false = some false
      rw [chunkScan_escCSV f (hcr f (List.mem_cons_self f _))]
      rw [show chunkScan (',' :: joinComma ((f2 :: rest2).map escCSV)) false =
          chunkScan (joinComma ((f2 :: rest2).map escCSV)) false from by
        simp [chunkScan]]
      exact ih (fun x hx => hcr x (List.mem_cons_of_mem f hx))

theorem comma_mem_rowChars (e : Entry) : ',' ∈ rowChars e := by
  show ',' ∈ escCSV (numCell e.id) ++ ',' :: _
  simp

/-- The six schema fields of an entry (`raw` excluded: CSV export drops it
and import re-derives it from the message). -/
def sixFields (e : Entry) :
    Option JNum × Option JNum × Option String × String × Option String × String :=
  (e.id, e.terminal, e.device_timestamp, e.level, e.tag, e.message)

/-- No carriage-return character in the string. -/
abbrev noCR (s : String) : Prop := '\x0d' ∉ s.data

/-- The shape `normalize` guarantees for every stored entry, plus the
restriction claim C2's counterexample forces: no bare carriage returns
(the quoting step does not protect them and the line splitter drops
them). -/
def csvWf (e : Entry) : Prop :=
  (∃ jn, e.id = some jn) ∧ (∃ jn, e.terminal = some jn) ∧
  e.level ∈ LEVELS ∧
  e.device_timestamp ≠ some "" ∧ e.tag ≠ some "" ∧
  (∀ s, e.device_timestamp = some s → noCR s) ∧
  (∀ s, e.tag = some s → noCR s) ∧ noCR e.message

theorem strMkData (s : String) : String.mk s.data = s := rfl

theorem numCell_noCR (o : Option JNum) : '\x0d' ∉ numCell o := by
  cases o with
  | none => simp [numCell]
  | some jn =>
    cases jn with
    | none => decide
    | some i =>
      show '\x0d' ∉ (jnumToStr (some i)).data
      obtain ⟨-, hdig, -⟩ := natChars_spec i.natAbs
      by_cases hi : i < 0
      · rw [show jnumToStr (some i) = "-" ++ String.mk (natChars i.natAbs) from by
          simp [jnumToStr, hi]]
        intro hmem
        rcases List.mem_cons.mp hmem with h | h
        · cases h
        · exact absurd (hdig _ h) (by decide)
      · rw [show jnumToStr (some i) = String.mk (natChars i.natAbs) from by
          simp [jnumToStr, hi]]
        intro hmem
        exact absurd (hdig _ hmem) (by decide)

theorem rowCells_noCR (e : Entry) (hwf : csvWf e) :
    ∀ f ∈ rowCells e, '\x0d' ∉ f := by
  obtain ⟨-, -, hlev, -, -, hdtcr, htagcr, hmsgcr⟩ := hwf
  intro f hf
  simp only [rowCells, List.mem_cons, List.not_mem_nil, or_false] at hf
  rcases hf with h | h | h | h | h | h
  · exact h ▸ numCell_noCR e.id
  · exact h ▸ numCell_noCR e.terminal
  · subst h
    cases hdt : e.device_timestamp with
    | none => simp [strCell]
    | some s => simpa [strCell] using hdtcr s hdt
  · subst h
    simp only [LEVELS, List.mem_cons, List.not_mem_nil, or_false] at hlev
    rcases hlev with h | h | h | h | h <;> rw [h] <;> decide
  · subst h
    cases htg : e.tag with
    | none => simp [strCell]
    | some s => simpa [strCell] using htagcr s htg
  · exact h ▸ hmsgcr

theorem rowChars_good (e : Entry) (hwf : csvWf e) :
    chunkScan (rowChars e) false = some false :=
  chunkScan_joinComma (rowCells e) (rowCells_noCR e hwf)

theorem candidateOfCSV_header (A B C D E F : String) :
    candidateOfCSV ["id", "terminal", "device_timestamp", "level", "tag", "message"]
      [A, B, C, D, E, F] =
    { id := some (jsNumberOfString A), terminal := some (jsNumberOfString B),
      device_timestamp := some C, level := some D, tag := some E,
      message := some F, raw := none } := rfl

theorem level_lower_fixed (l : String) (h : l ∈ LEVELS) :
    strLower l = l ∧ LEVELS.contains l = true := by
  fin_cases h <;> exact ⟨rfl, rfl⟩

theorem strOr_some (s : String) (h : s ≠ "") : strOr (some s) = some s := by
  unfold strOr
  split
  case _ heq => exact absurd (Option.some.inj heq) h
  case _ => rfl

/-- One data row survives the export/import round trip on the six schema
fields. -/
theorem normalize_roundtrip_row (e : Entry) (n : Nat) (hwf : csvWf e) :
    sixFields (normalize (candidateOfCSV
      ["id", "terminal", "device_timestamp", "level", "tag", "message"]
      ((rowCells e).map String.mk)) n) = sixFields e := by
  obtain ⟨⟨jn1, hid⟩, ⟨jn2, hterm⟩, hlev, hdt, htag, -, -, -⟩ := hwf
  rw [show (rowCells e).map String.mk = [String.mk (numCell e.id),
    String.mk (numCell e.terminal), String.mk (strCell e.device_timestamp),
    String.mk e.level.data, String.mk (strCell e.tag),
    String.mk e.message.data] from rfl]
  rw [candidateOfCSV_header]
  unfold normalize sixFields
  obtain ⟨hlow, hcont⟩ := level_lower_fixed e.level hlev
  simp only [Prod.mk.injEq]
  refine ⟨?_, ?_, ?_, ?_, ?_, ?_⟩
  · rw [hid]
    show some (jsNumberOfString (String.mk (jnumToStr jn1).data)) = some jn1
    rw [strMkData, jsNumberOfString_jnumToStr]
  · rw [hterm]
    show some (jsNumberOfString (String.mk (jnumToStr jn2).data)) = some jn2
    rw [strMkData, jsNumberOfString_jnumToStr]
  · cases hd : e.device_timestamp with
    | none => rfl
    | some s =>
      have hs : s ≠ "" := fun hnil => hdt (hnil ▸ hd)
      show strOr (some (String.mk s.data)) = some s
      rw [strMkData, strOr_some s hs]
  · have hne : e.level ≠ "" := by
      intro hnil
      rw [hnil] at hlev
      simp [LEVELS] at hlev
    show (if LEVELS.contains (strLower ((strOr (some (String.mk e.level.data))).getD "raw"))
        then strLower ((strOr (some (String.mk e.level.data))).getD "raw")
        else "raw") = e.level
    rw [strMkData, strOr_some e.level hne]
    show (if LEVELS.contains (strLower e.level) then strLower e.level else "raw") = e.level
    rw [hlow, if_pos hcont]
  · cases ht : e.tag with
    | none => rfl
    | some s =>
      have hs : s ≠ "" := fun hnil => htag (hnil ▸ ht)
      show strOr (some (String.mk s.data)) = some s
      rw [strMkData, strOr_some s hs]
  · show (jsOr (strOr (some (String.mk e.message.data))) (strOr none)).getD "" = e.message
    rw [strMkData]
    by_cases hm : e.message = ""
    · rw [hm]
      rfl
    · rw [strOr_some e.message hm]
      rfl

theorem csv_split_export (l : List Entry) (hwf : ∀ e ∈ l, csvWf e) :
    splitCSVLines (logsToCSV l) = csvHeader :: l.map rowChars := by
  unfold splitCSVLines logsToCSV
  show splitCSVAux (joinNl (csvHeader :: l.map rowChars)) false [] = _
  apply splitCSVAux_joinNl
  · intro r hr
    rcases List.mem_cons.mp hr with h | h
    · subst h
      decide
    · obtain ⟨e, he, hre⟩ := List.mem_map.mp h
      rw [← hre]
      exact rowChars_good e (hwf e he)
  · intro r hr
    rcases List.mem_cons.mp hr with h | h
    · subst h
      decide
    · obtain ⟨e, he, hre⟩ := List.mem_map.mp h
      rw [← hre]
      exact List.ne_nil_of_mem (comma_mem_rowChars e)

theorem parseCSVRow_header :
    parseCSVRow csvHeader =
      ["id", "terminal", "device_timestamp", "level", "tag", "message"] := by
  decide

/-- Equality of parse results is decidable (used by concrete evaluations
below). -/
instance exceptEntriesDecEq : DecidableEq (Except String (List Entry)) := fun a b =>
  match a, b with
  | .error x, .error y =>
    if h : x = y then .isTrue (h ▸ rfl)
    else .isFalse (fun hc => h (Except.error.inj hc))
  | .ok x, .ok y =>
    if h : x = y then .isTrue (h ▸ rfl)
    else .isFalse (fun hc => h (Except.ok.inj hc))
  | .error _, .ok _ => .isFalse (fun hc => Except.noConfusion hc)
  | .ok _, .error _ => .isFalse (fun hc => Except.noConfusion hc)

/-- An entry whose message holds a bare carriage return (no comma, quote
or newline, so `escCSV` leaves the cell unquoted). -/
def c2CrEntry : Entry := normalize { message := some "a\x0db" } 0

/-- C2 counterexample: the CSV round trip is not the identity on the six
schema fields — a carriage return in an unquoted cell is silently dropped
by `splitCSVLines`, so the re-imported message differs. -/
theorem csv_roundtrip_drops_cr :
    parseCSV (logsToCSV [c2CrEntry]) 0 =
      .ok [{ id := some (some 0), terminal := some (some 0),
             device_timestamp := none, level := "raw", tag := none,
             message := "ab", raw := "ab" }] ∧
    c2CrEntry.message = "a\x0db" ∧ ("ab" : String) ≠ "a\x0db" :=
  ⟨by decide, rfl, by decide⟩

/-- C2 as amended: for every nonempty sequence of normalized entries none
of whose string fields contains a bare carriage return, exporting to CSV
and re-importing the produced text yields a sequence of the same length
that is identical entry-by-entry on the six schema fields id, terminal,
device_timestamp, level, tag and message — including fields containing
commas, double quotes or newlines, which are RFC4180-quoted on export. -/
theorem csv_export_import_roundtrip (l : List Entry) (n : Nat)
    (hne : l ≠ []) (hwf : ∀ e ∈ l, csvWf e) :
    ∃ out, parseCSV (logsToCSV l) n = .ok out ∧
      out.map sixFields = l.map sixFields := by
  have hsplit := csv_split_export l hwf
  unfold parseCSV
  rw [hsplit]
  cases l with
  | nil => exact absurd rfl hne
  | cons e0 rest =>
    rw [show List.map rowChars (e0 :: rest) = rowChars e0 :: List.map rowChars rest
      from rfl]
    have hfilter : (rowChars e0 :: List.map rowChars rest).filter
        (fun line => !(jsTrim line).isEmpty) =
        rowChars e0 :: List.map rowChars rest := by
      apply List.filter_eq_self.mpr
      intro r hr
      have hcomma : ',' ∈ r := by
        rcases List.mem_cons.mp hr with h | h
        · subst h
          exact comma_mem_rowChars e0
        · obtain ⟨e, he, hre⟩ := List.mem_map.mp h
          rw [← hre]
          exact comma_mem_rowChars e
      have hnn := jsTrim_ne_nil r ',' hcomma (by decide)
      cases hj : jsTrim r with
      | nil => exact absurd hj hnn
      | cons a t => simp [hj]
    refine ⟨_, rfl, ?_⟩
    show (((rowChars e0 :: List.map rowChars rest).filter
        (fun line => !(jsTrim line).isEmpty)).map
        (fun line => normalize (candidateOfCSV (parseCSVRow csvHeader)
          (parseCSVRow line)) n)).map sixFields = _
    rw [hfilter, parseCSVRow_header]
    rw [show rowChars e0 :: List.map rowChars rest = List.map rowChars (e0 :: rest)
      from rfl]
    rw [List.map_map, List.map_map]
    apply List.map_congr_left
    intro e he
    show sixFields (normalize (candidateOfCSV _ (parseCSVRow (rowChars e))) n) =
      sixFields e
    rw [parseCSVRow_rowChars]
    exact normalize_roundtrip_row e n (hwf e he)

/-- A witness entry exercising the RFC4180 quoting: a comma in the tag, a
quote and a newline in the message. -/
def c2WEntry : Entry :=
  { id := some (some 3), terminal := some (some 1),
    device_timestamp := some "12:00", level := "warn", tag := some "net,core",
    message := "say \"hi\"\nline2", raw := "orig" }

theorem csv_export_import_roundtrip_witness :
    ∃ out, parseCSV (logsToCSV [c2WEntry]) 9 = .ok out ∧
      out.map sixFields = [c2WEntry].map sixFields := by
  apply csv_export_import_roundtrip [c2WEntry] 9 (by simp)
  intro e he
  rw [List.mem_singleton.mp he]
  exact ⟨⟨some 3, rfl⟩, ⟨some 1, rfl⟩, by decide, by decide, by decide,
    by intro s hs; rw [← Option.some.inj hs]; decide,
    by intro s hs; rw [← Option.some.inj hs]; decide,
    by decide⟩

/-! ## Claim C8 — plain-text export → re-import round trip
(id and terminal fidelity through cascade rule 4). -/

/-- Neither newline nor carriage return in the string. -/
abbrev noNl (s : String) : Prop := '\n' ∉ s.data ∧ '\x0d' ∉ s.data

/-- The shape required of an entry for the self-export round trip: the
normalized shape plus what claim C8's counterexamples force — nonnegative
integer id and terminal, a timestamp token drawn from the `[\d:.,]` class
rule 4 expects, and no line breaks inside tag, message or raw. -/
def txtWf (e : Entry) : Prop :=
  (∃ m : Nat, e.id = some (some (Int.ofNat m))) ∧
  (∃ t : Nat, e.terminal = some (some (Int.ofNat t))) ∧
  e.level ∈ LEVELS ∧
  (e.device_timestamp = none ∨ ∃ s, e.device_timestamp = some s ∧ s ≠ "" ∧
    ∀ c ∈ s.data, isTsChar c = true) ∧
  e.tag ≠ some "" ∧ (∀ s, e.tag = some s → noNl s) ∧
  noNl e.message ∧ noNl e.raw

theorem rttMatch_none_of_head (c : Char) (hc : c.isDigit = false)
    (t : List Char) : rttMatch (c :: t) = none := by
  rcases t with _ | ⟨b, _ | ⟨g, _ | ⟨d, r⟩⟩⟩ <;> simp [rttMatch, hc]

theorem rttMatch_none_of_third (a b g : Char) (hg : g.isDigit = true)
    (t : List Char) : rttMatch (a :: b :: g :: t) = none := by
  have hne : ¬ g = '>' := isDigit_ne g '>' hg (by decide)
  rcases t with _ | ⟨d, r⟩ <;> simp [rttMatch, hne]

theorem zephyrMatch_none_of_head (c : Char) (hc : ¬ c = '[')
    (t : List Char) : zephyrMatch (c :: t) = none := by
  simp [zephyrMatch, hc]

theorem taggedMatch_none_of_head (c : Char) (hc : ¬ c = '<')
    (t : List Char) : taggedMatch (c :: t) = none := by
  simp [taggedMatch, hc]

theorem dropWhile_append_all (p : Char → Bool) (l1 : List Char)
    (h : ∀ c ∈ l1, p c = true) (l2 : List Char) :
    (l1 ++ l2).dropWhile p = l2.dropWhile p := by
  induction l1 with
  | nil => rfl
  | cons a t ih =>
    rw [List.cons_append, List.dropWhile_cons_of_pos (h a (List.mem_cons_self a t))]
    exact ih (fun c hc => h c (List.mem_cons_of_mem a hc))

theorem takeWhile_append_cons (p : Char → Bool) (l1 : List Char) (c : Char)
    (l2 : List Char) (h1 : ∀ x ∈ l1, p x = true) (hc : p c = false) :
    (l1 ++ c :: l2).takeWhile p = l1 := by
  induction l1 with
  | nil => simp [List.takeWhile_cons, hc]
  | cons a t ih =>
    rw [List.cons_append, List.takeWhile_cons_of_pos (h1 a (List.mem_cons_self a t))]
    rw [ih (fun x hx => h1 x (List.mem_cons_of_mem a hx))]

theorem isTsChar_not_ws (c : Char) (h : isTsChar c = true) : jsWs c = false := by
  simp only [isTsChar, Bool.or_eq_true, decide_eq_true_eq] at h
  rcases h with ((h | h) | h) | h
  · exact isDigit_not_ws c h
  all_goals subst h; decide

theorem isTsChar_not_bracket (c : Char) (h : isTsChar c = true) : ¬ c = '[' := by
  simp only [isTsChar, Bool.or_eq_true, decide_eq_true_eq] at h
  rcases h with ((h | h) | h) | h
  · exact isDigit_ne c '[' h (by decide)
  all_goals subst h; decide

/-- The exported level abbreviation: nonempty, all word characters. -/
theorem lvl3_word (lv : String) (h : lv ∈ LEVELS) :
    lvl3 lv ≠ [] ∧ (∀ c ∈ lvl3 lv, isWordChar c = true) := by
  fin_cases h <;> exact ⟨by decide, by decide⟩

/-- The optional timestamp token of an exported line. -/
def tsMid (e : Entry) : List Char :=
  match strOr e.device_timestamp with
  | some s => ' ' :: s.data
  | none => []

/-- Everything of an exported line after the closing level bracket. -/
def tailOf (e : Entry) : List Char :=
  (match strOr e.tag with
   | some tg => ' ' :: '<' :: (tg.data ++ ['>'])
   | none => []) ++ ' ' :: msgPart e

/-- The exported line of a well-formed entry, in parse-ready shape. -/
theorem lineOf_shape (e : Entry) (m t : Nat)
    (hid : e.id = some (some (Int.ofNat m)))
    (hterm : e.terminal = some (some (Int.ofNat t))) :
    lineOf e = padStart5 (natChars m) ++ ' ' :: 'T' ::
      (natChars t ++ (tsMid e ++ ' ' :: '[' ::
        (lvl3 e.level ++ ']' :: tailOf e))) := by
  unfold lineOf tsMid tailOf
  rw [hid, hterm]
  have h1 : (jnumToStr (some ((m : Nat) : Int))).data = natChars m := by
    simp only [jnumToStr, Int.natAbs_ofNat]
    rw [if_neg (by omega)]
  have h2 : (jnumToStr (some ((t : Nat) : Int))).data = natChars t := by
    simp only [jnumToStr, Int.natAbs_ofNat]
    rw [if_neg (by omega)]
  cases hdt : strOr e.device_timestamp with
  | none =>
    cases htg : strOr e.tag with
    | none => simp [joinSp, h1, h2]
    | some tg => simp [joinSp, h1, h2]
  | some s =>
    cases htg : strOr e.tag with
    | none => simp [joinSp, h1, h2]
    | some tg => simp [joinSp, h1, h2]

theorem padStart5_dropWhile (m : Nat) (X : List Char) :
    (padStart5 (natChars m) ++ X).dropWhile jsWs = natChars m ++ X := by
  obtain ⟨hm_ne, hm_dig, -⟩ := natChars_spec m
  obtain ⟨c0, cs0, hc0⟩ := List.exists_cons_of_ne_nil hm_ne
  have hdropNat : (natChars m ++ X).dropWhile jsWs = natChars m ++ X := by
    rw [hc0, List.cons_append, List.dropWhile_cons_of_neg]
    rw [isDigit_not_ws c0 (hm_dig c0 (by rw [hc0]; exact List.mem_cons_self c0 cs0))]
    simp
  unfold padStart5
  by_cases hlen : (natChars m).length ≥ 5
  · rw [if_pos hlen]
    exact hdropNat
  · rw [if_neg hlen, List.append_assoc,
      dropWhile_append_all jsWs _ (fun c hc => by
        rw [List.eq_of_mem_replicate hc]; rfl)]
    exact hdropNat

theorem rule4T_hit (td tail : List Char) (hne : td ≠ [])
    (hdig : ∀ c ∈ td, Char.isDigit c = true) :
    rule4T ('T' :: (td ++ ' ' :: tail)) = (some td, ' ' :: tail) := by
  have hE : td.isEmpty = false := by
    cases hx : td with
    | nil => exact absurd hx hne
    | cons a b => rfl
  simp only [rule4T]
  rw [takeWhile_append_cons Char.isDigit td ' ' tail hdig (by decide)]
  simp only [hE, Bool.false_eq_true, if_false]
  rw [List.drop_left]

/-- Cascade rule 4 on an exported line: locked onto the exported sequence
number and terminal marker, whatever the timestamp, tag and message
segments hold. -/
theorem rule4_export (m t : Nat) (mid lvlw rest : List Char)
    (hmid : mid = [] ∨ ∃ ts, mid = ' ' :: ts ∧ ts ≠ [] ∧
      ∀ c ∈ ts, isTsChar c = true)
    (hlvl1 : lvlw ≠ []) (hlvl2 : ∀ c ∈ lvlw, isWordChar c = true) :
    ∃ g3 g5 g6, rule4Match (padStart5 (natChars m) ++ ' ' :: 'T' ::
      (natChars t ++ (mid ++ ' ' :: '[' :: (lvlw ++ ']' :: rest)))) =
      some (some (natChars m), some (natChars t), g3, lvlw, g5, g6) := by
  obtain ⟨hm_ne, hm_dig, -⟩ := natChars_spec m
  obtain ⟨ht_ne, ht_dig, -⟩ := natChars_spec t
  have hmE : (natChars m).isEmpty = false := by
    cases hx : natChars m with
    | nil => exact absurd hx hm_ne
    | cons a b => rfl
  have htE : (natChars t).isEmpty = false := by
    cases hx : natChars t with
    | nil => exact absurd hx ht_ne
    | cons a b => rfl
  have hwE : lvlw.isEmpty = false := by
    cases hx : lvlw with
    | nil => exact absurd hx hlvl1
    | cons a b => rfl
  have hbr : ∀ d td tok, ∃ g5 g6,
      rule4Bracket d td tok ('[' :: (lvlw ++ ']' :: rest)) =
        some (d, td, tok, lvlw, g5, g6) := by
    intro d td tok
    simp only [rule4Bracket]
    rw [takeWhile_append_cons isWordChar lvlw ']' rest hlvl2 (by decide)]
    simp only [hwE, Bool.false_eq_true, if_false]
    rw [List.drop_left]
    simp only [rule4Close]
    exact ⟨_, _, rfl⟩
  simp only [rule4Match]
  rw [padStart5_dropWhile]
  rw [takeWhile_append_cons Char.isDigit (natChars m) ' ' _ hm_dig (by decide)]
  rw [List.drop_left]
  rw [List.dropWhile_cons_of_pos (p := jsWs) (by decide),
    List.dropWhile_cons_of_neg (p := jsWs) (by decide)]
  rcases hmid with rfl | ⟨ts, rfl, hts_ne, hts⟩
  · simp only [List.nil_append]
    rw [rule4T_hit (natChars t) ('[' :: (lvlw ++ ']' :: rest)) ht_ne ht_dig]
    rw [List.dropWhile_cons_of_pos (p := jsWs) (by decide),
      List.dropWhile_cons_of_neg (p := jsWs) (by decide)]
    rw [show ('[' :: (lvlw ++ ']' :: rest)).takeWhile isTsChar = [] from by
      rw [List.takeWhile_cons_of_neg] <;> decide]
    simp only [List.length_nil, List.drop_zero]
    rw [List.dropWhile_cons_of_neg (p := jsWs) (by decide)]
    simp only [hmE, Bool.false_eq_true, if_false, List.isEmpty_nil, if_true]
    obtain ⟨g5, g6, hh⟩ := hbr (some (natChars m)) (some (natChars t)) none
    exact ⟨none, g5, g6, hh⟩
  · obtain ⟨t0, ts0, hts0⟩ := List.exists_cons_of_ne_nil hts_ne
    rw [show (' ' :: ts) ++ ' ' :: '[' :: (lvlw ++ ']' :: rest) =
      ' ' :: (ts ++ ' ' :: '[' :: (lvlw ++ ']' :: rest)) from rfl]
    rw [rule4T_hit (natChars t) (ts ++ ' ' :: '[' :: (lvlw ++ ']' :: rest))
      ht_ne ht_dig]
    rw [List.dropWhile_cons_of_pos (p := jsWs) (by decide)]
    rw [show (ts ++ ' ' :: '[' :: (lvlw ++ ']' :: rest)).dropWhile jsWs =
        ts ++ ' ' :: '[' :: (lvlw ++ ']' :: rest) from by
      rw [hts0, List.cons_append, List.dropWhile_cons_of_neg]
      rw [isTsChar_not_ws t0 (hts t0 (by rw [hts0]; exact List.mem_cons_self t0 ts0))]
      simp]
    rw [takeWhile_append_cons isTsChar ts ' ' _ hts (by decide)]
    rw [List.drop_left]
    rw [List.dropWhile_cons_of_pos (p := jsWs) (by decide),
      List.dropWhile_cons_of_neg (p := jsWs) (by decide)]
    have htsE : ts.isEmpty = false := by
      cases hx : ts with
      | nil => exact absurd hx hts_ne
      | cons a b => rfl
    simp only [hmE, htsE, Bool.false_eq_true, if_false]
    obtain ⟨g5, g6, hh⟩ := hbr (some (natChars m)) (some (natChars t)) (some ts)
    exact ⟨some ts, g5, g6, hh⟩

/-- Cascade rule 1 never fires on an exported line: the padded sequence
number starts with either a space or at least five digits, so the
`(\d{2})>` shape is impossible. -/
theorem rttMatch_export (m : Nat) (X : List Char) :
    rttMatch (padStart5 (natChars m) ++ X) = none := by
  obtain ⟨hne, hdig, -⟩ := natChars_spec m
  unfold padStart5
  by_cases hlen : (natChars m).length ≥ 5
  · rw [if_pos hlen]
    rcases hx : natChars m with - | ⟨a, - | ⟨b, - | ⟨g, r⟩⟩⟩
    · rw [hx] at hlen; simp at hlen
    · rw [hx] at hlen; simp at hlen
    · rw [hx] at hlen; simp at hlen
    · have hgmem : g ∈ natChars m := by
        rw [hx]
        exact List.mem_cons_of_mem a (List.mem_cons_of_mem b (List.mem_cons_self g r))
      rw [List.cons_append, List.cons_append, List.cons_append]
      exact rttMatch_none_of_third a b g (hdig g hgmem) _
  · rw [if_neg hlen]
    rw [show 5 - (natChars m).length = (4 - (natChars m).length) + 1 from by omega]
    rw [List.replicate_succ, List.cons_append, List.cons_append]
    exact rttMatch_none_of_head ' ' (by decide) _

/-- Cascade rule 2 never fires on an exported line (head is a space or a
digit, never `[`). -/
theorem zephyrMatch_export (m : Nat) (X : List Char) :
    zephyrMatch (padStart5 (natChars m) ++ X) = none := by
  obtain ⟨hne, hdig, -⟩ := natChars_spec m
  unfold padStart5
  by_cases hlen : (natChars m).length ≥ 5
  · rw [if_pos hlen]
    obtain ⟨a, r, hx⟩ := List.exists_cons_of_ne_nil hne
    rw [hx, List.cons_append]
    exact zephyrMatch_none_of_head a
      (isDigit_ne a '[' (hdig a (by rw [hx]; exact List.mem_cons_self a r))
        (by decide)) _
  · rw [if_neg hlen]
    rw [show 5 - (natChars m).length = (4 - (natChars m).length) + 1 from by omega]
    rw [List.replicate_succ, List.cons_append, List.cons_append]
    exact zephyrMatch_none_of_head ' ' (by decide) _

/-- Cascade rule 3 never fires on an exported line (head is a space or a
digit, never `<`). -/
theorem taggedMatch_export (m : Nat) (X : List Char) :
    taggedMatch (padStart5 (natChars m) ++ X) = none := by
  obtain ⟨hne, hdig, -⟩ := natChars_spec m
  unfold padStart5
  by_cases hlen : (natChars m).length ≥ 5
  · rw [if_pos hlen]
    obtain ⟨a, r, hx⟩ := List.exists_cons_of_ne_nil hne
    rw [hx, List.cons_append]
    exact taggedMatch_none_of_head a
      (isDigit_ne a '<' (hdig a (by rw [hx]; exact List.mem_cons_self a r))
        (by decide)) _
  · rw [if_neg hlen]
    rw [show 5 - (natChars m).length = (4 - (natChars m).length) + 1 from by omega]
    rw [List.replicate_succ, List.cons_append, List.cons_append]
    exact taggedMatch_none_of_head ' ' (by decide) _

theorem not_ws_ne_nl (c : Char) (h : jsWs c = false) :
    ¬ c = '\n' ∧ ¬ c = '\x0d' :=
  ⟨fun he => by subst he; exact absurd h (by decide),
   fun he => by subst he; exact absurd h (by decide)⟩

theorem isWordChar_ne_nl (c : Char) (h : isWordChar c = true) :
    ¬ c = '\n' ∧ ¬ c = '\x0d' :=
  ⟨fun he => by subst he; exact absurd h (by decide),
   fun he => by subst he; exact absurd h (by decide)⟩

theorem noNl_mem (s : String) (h : noNl s) (c : Char) (hc : c ∈ s.data) :
    ¬ c = '\n' ∧ ¬ c = '\x0d' :=
  ⟨fun he => h.1 (he ▸ hc), fun he => h.2 (he ▸ hc)⟩

theorem mem_padStart5 (l : List Char) (c : Char) (hc : c ∈ padStart5 l) :
    c = ' ' ∨ c ∈ l := by
  unfold padStart5 at hc
  split at hc
  · exact Or.inr hc
  · rcases List.mem_append.mp hc with h | h
    · exact Or.inl (List.eq_of_mem_replicate h)
    · exact Or.inr h

theorem strOr_some_inv (s : Option String) (x : String)
    (h : strOr s = some x) : s = some x := by
  unfold strOr at h
  split at h
  · cases h
  · exact h

/-- The `\r\n`/`\r` normalisation is the identity on CR-free text. -/
theorem normNl_id (l : List Char) (h : '\x0d' ∉ l) : normNl l = l := by
  induction l with
  | nil => rfl
  | cons c r ih =>
    have hc : ¬ c = '\x0d' := fun he => h (he ▸ List.mem_cons_self c r)
    have hr := ih (fun hm => h (List.mem_cons_of_mem c hm))
    simp [normNl, hc, hr]

/-- `split('\n')` on a newline-free list is one field. -/
theorem splitNl_no_nl (l : List Char) (h : '\n' ∉ l) : splitNl l = [l] := by
  induction l with
  | nil => rfl
  | cons c r ih =>
    have hc : ¬ c = '\n' := fun he => h (he ▸ List.mem_cons_self c r)
    have hr := ih (fun hm => h (List.mem_cons_of_mem c hm))
    simp [splitNl, hc, hr]

theorem splitNl_append_nl (s r : List Char) (h : '\n' ∉ s) :
    splitNl (s ++ '\n' :: r) = s :: splitNl r := by
  induction s with
  | nil => simp [splitNl]
  | cons c cs ih =>
    have hc : ¬ c = '\n' := fun he => h (he ▸ List.mem_cons_self c cs)
    have hr := ih (fun hm => h (List.mem_cons_of_mem c hm))
    rw [List.cons_append]
    simp [splitNl, hc, hr]

/-- `split('\n')` inverts `join('\n')` on nonempty newline-free lines. -/
theorem splitNl_joinNl (ls : List (List Char)) (hne : ls ≠ [])
    (h : ∀ s ∈ ls, '\n' ∉ s) : splitNl (joinNl ls) = ls := by
  induction ls with
  | nil => exact absurd rfl hne
  | cons s rest ih =>
    cases rest with
    | nil =>
      rw [show joinNl [s] = s from rfl]
      exact splitNl_no_nl s (h s (List.mem_cons_self s []))
    | cons s2 r2 =>
      rw [show joinNl (s :: s2 :: r2) = s ++ '\n' :: joinNl (s2 :: r2) from rfl]
      rw [splitNl_append_nl s _ (h s (List.mem_cons_self s _))]
      rw [ih (by simp) (fun x hx => h x (List.mem_cons_of_mem s hx))]

theorem joinNl_no_cr (ls : List (List Char)) (h : ∀ s ∈ ls, '\x0d' ∉ s) :
    '\x0d' ∉ joinNl ls := by
  induction ls with
  | nil => simp [joinNl]
  | cons s rest ih =>
    cases rest with
    | nil => exact h s (List.mem_cons_self s [])
    | cons s2 r2 =>
      rw [show joinNl (s :: s2 :: r2) = s ++ '\n' :: joinNl (s2 :: r2) from rfl]
      intro hm
      rcases List.mem_append.mp hm with hm | hm
      · exact h s (List.mem_cons_self s _) hm
      · rcases List.mem_cons.mp hm with hm | hm
        · exact absurd hm (by decide)
        · exact ih (fun x hx => h x (List.mem_cons_of_mem s hx)) hm

/-- No line break (`\n` or `\r`) occurs inside the exported line of a
well-formed entry. -/
theorem lineOf_chars (e : Entry) (he : txtWf e) :
    ∀ c ∈ lineOf e, ¬ c = '\n' ∧ ¬ c = '\x0d' := by
  obtain ⟨⟨m, hid⟩, ⟨t, hterm⟩, hlev, hdt, -, htagN, hmsg, hraw⟩ := he
  rw [lineOf_shape e m t hid hterm]
  intro c hc
  obtain ⟨-, hmdig, -⟩ := natChars_spec m
  obtain ⟨-, htdig, -⟩ := natChars_spec t
  simp only [List.mem_append, List.mem_cons] at hc
  rcases hc with h | h | h | h | h | h | h | h | h | h
  · rcases mem_padStart5 _ c h with h | h
    · subst h; exact ⟨by decide, by decide⟩
    · exact not_ws_ne_nl c (isDigit_not_ws c (hmdig c h))
  · subst h; exact ⟨by decide, by decide⟩
  · subst h; exact ⟨by decide, by decide⟩
  · exact not_ws_ne_nl c (isDigit_not_ws c (htdig c h))
  · rcases hdt with hdt0 | ⟨s, hds, hsne, hsts⟩
    · rw [show tsMid e = [] from by unfold tsMid; rw [hdt0]; rfl] at h
      cases h
    · rw [show tsMid e = ' ' :: s.data from by
        unfold tsMid; rw [hds, strOr_some s hsne]] at h
      rcases List.mem_cons.mp h with h | h
      · subst h; exact ⟨by decide, by decide⟩
      · exact not_ws_ne_nl c (isTsChar_not_ws c (hsts c h))
  · subst h; exact ⟨by decide, by decide⟩
  · subst h; exact ⟨by decide, by decide⟩
  · exact isWordChar_ne_nl c ((lvl3_word e.level hlev).2 c h)
  · subst h; exact ⟨by decide, by decide⟩
  · unfold tailOf at h
    have hmsgPart : ∀ x ∈ msgPart e, ¬ x = '\n' ∧ ¬ x = '\x0d' := by
      intro x hx
      unfold msgPart at hx
      split at hx
      · exact noNl_mem e.message hmsg x hx
      · split at hx
        · exact noNl_mem e.raw hraw x hx
        · cases hx
    cases htg : strOr e.tag with
    | none =>
      rw [htg] at h
      simp only [List.nil_append, List.mem_cons] at h
      rcases h with h | h
      · subst h; exact ⟨by decide, by decide⟩
      · exact hmsgPart c h
    | some tg =>
      rw [htg] at h
      have htgN := htagN tg (strOr_some_inv _ _ htg)
      simp only [List.cons_append, List.mem_cons, List.mem_append] at h
      rcases h with h | h | h
      · subst h; exact ⟨by decide, by decide⟩
      · subst h; exact ⟨by decide, by decide⟩
      · rcases h with (h | h) | h
        · exact noNl_mem tg htgN c h
        · rcases h with h | h
          · subst h; exact ⟨by decide, by decide⟩
          · cases h
        · rcases h with h | h
          · subst h; exact ⟨by decide, by decide⟩
          · exact hmsgPart c h

/-- Re-parsing the exported line of a well-formed entry: rules 1–3 miss,
rule 4 fires and restores the entry's id and terminal exactly; the
synthetic-id counter is not consumed. -/
theorem parseTextLine_export (e : Entry) (storeLen ctr : Nat)
    (he : txtWf e) :
    (parseTextLine storeLen ctr (lineOf e)).1.id = e.id ∧
    (parseTextLine storeLen ctr (lineOf e)).1.terminal = e.terminal ∧
    (parseTextLine storeLen ctr (lineOf e)).2 = ctr := by
  obtain ⟨⟨m, hid⟩, ⟨t, hterm⟩, hlev, hdt, -, -, -, -⟩ := he
  have hshape := lineOf_shape e m t hid hterm
  have hmid : tsMid e = [] ∨ ∃ ts, tsMid e = ' ' :: ts ∧ ts ≠ [] ∧
      ∀ c ∈ ts, isTsChar c = true := by
    rcases hdt with hdt0 | ⟨s, hds, hsne, hsts⟩
    · left; unfold tsMid; rw [hdt0]; rfl
    · right
      refine ⟨s.data, by unfold tsMid; rw [hds, strOr_some s hsne], ?_, hsts⟩
      intro hnil
      exact hsne (show s = "" from by rw [← strMkData s, hnil])
  obtain ⟨hl1, hl2⟩ := lvl3_word e.level hlev
  obtain ⟨g3, g5, g6, hr4⟩ :=
    rule4_export m t (tsMid e) (lvl3 e.level) (tailOf e) hmid hl1 hl2
  have hrtt : rttMatch (lineOf e) = none := by
    rw [hshape]; exact rttMatch_export m _
  have hz : zephyrMatch (lineOf e) = none := by
    rw [hshape]; exact zephyrMatch_export m _
  have htg : taggedMatch (lineOf e) = none := by
    rw [hshape]; exact taggedMatch_export m _
  have hr4' : rule4Match (lineOf e) =
      some (some (natChars m), some (natChars t), g3, lvl3 e.level, g5, g6) := by
    rw [hshape]; exact hr4
  obtain ⟨-, -, hmv⟩ := natChars_spec m
  obtain ⟨-, -, htv⟩ := natChars_spec t
  simp only [parseTextLine, hrtt, hz, htg, hr4']
  refine ⟨?_, ?_, trivial⟩
  · simp only [normalize, Option.getD_some]
    rw [hmv, hid]
  · simp only [normalize, Option.getD_some]
    rw [htv, hterm]

/-- The filter step of `parseText` keeps every exported line (each holds a
non-whitespace `[`). -/
theorem filter_keeps_export (l : List Entry)
    (h : ∀ e ∈ l, txtWf e) :
    (l.map lineOf).filter (fun s => !(jsTrim s).isEmpty) = l.map lineOf := by
  apply List.filter_eq_self.mpr
  intro s hs
  obtain ⟨e, he, rfl⟩ := List.mem_map.mp hs
  obtain ⟨⟨m, hid⟩, ⟨t, hterm⟩, -⟩ := h e he
  have hbr : '[' ∈ lineOf e := by
    rw [lineOf_shape e m t hid hterm]
    simp
  have hnil := jsTrim_ne_nil _ '[' hbr (by decide)
  cases hx : jsTrim (lineOf e) with
  | nil => exact absurd hx hnil
  | cons a b => rfl

/-- The bulk parse over exported lines restores id and terminal entry by
entry. -/
theorem parseTextGo_export (storeLen : Nat) (l : List Entry)
    (h : ∀ e ∈ l, txtWf e) : ∀ ctr,
    (parseTextGo storeLen ctr (l.map lineOf)).map
        (fun e => (e.id, e.terminal)) =
      l.map (fun e => (e.id, e.terminal)) := by
  induction l with
  | nil => intro _; rfl
  | cons e rest ih =>
    intro ctr
    obtain ⟨hidq, htermq, hctr⟩ :=
      parseTextLine_export e storeLen ctr (h e (List.mem_cons_self e rest))
    rw [show parseTextGo storeLen ctr ((e :: rest).map lineOf) =
      (parseTextLine storeLen ctr (lineOf e)).1 ::
        parseTextGo storeLen (parseTextLine storeLen ctr (lineOf e)).2
          (rest.map lineOf) from rfl]
    simp only [List.map_cons]
    rw [hidq, htermq, hctr]
    rw [ih (fun x hx => h x (List.mem_cons_of_mem e hx)) ctr]

/-- A normalized entry whose message (hence raw) holds a newline: the
plain-text serializer emits the newline verbatim, so the re-parse splits
the line in two. -/
def entryNL : Entry :=
  normalize { id := some (some 7), terminal := some (some 0),
              level := some "info", message := some "a\nb",
              raw := some "a\nb" } 0

/-- Claim C8 (counterexample): a sequence of one normalized entry whose
message contains a newline re-imports as two entries — `logsToText` joins
lines with `\n` but never escapes newlines inside a message, and
`parseText` splits on every `\n`; so the export/import round trip does not
preserve the number of entries for arbitrary normalized input. -/
theorem text_roundtrip_splits_newline_message :
    (parseText (logsToText [entryNL]) 0).length = 2 ∧
      [entryNL].length = 1 := by
  constructor
  · rfl
  · rfl

/-- Claim C8: for entries with nonnegative integer id and terminal, a
canonical level, a `[\d:.,]`-shaped (or absent) timestamp, a non-empty (or
absent) tag and no line break in tag, message or raw, serializing with
`logsToText` and re-parsing with `parseText` yields the same number of
entries with the same id and the same terminal, entry by entry in order:
rules 1–3 of the cascade miss every exported line and rule 4 recovers the
printed id and terminal digits.  (The unrestricted claim is refuted by
`text_roundtrip_splits_newline_message`.) -/
theorem text_export_import_roundtrip (l : List Entry) (storeLen : Nat)
    (h : ∀ e ∈ l, txtWf e) :
    (parseText (logsToText l) storeLen).map (fun e => (e.id, e.terminal)) =
      l.map (fun e => (e.id, e.terminal)) := by
  rcases l with - | ⟨e0, r0⟩
  · rfl
  · unfold parseText logsToText
    rw [show (String.mk (joinNl ((e0 :: r0).map lineOf))).data =
      joinNl ((e0 :: r0).map lineOf) from rfl]
    have hcr : ∀ s ∈ (e0 :: r0).map lineOf, '\x0d' ∉ s := by
      intro s hs
      obtain ⟨e, he, rfl⟩ := List.mem_map.mp hs
      intro hm
      exact (lineOf_chars e (h e he) _ hm).2 rfl
    have hnl : ∀ s ∈ (e0 :: r0).map lineOf, '\n' ∉ s := by
      intro s hs
      obtain ⟨e, he, rfl⟩ := List.mem_map.mp hs
      intro hm
      exact (lineOf_chars e (h e he) _ hm).1 rfl
    rw [normNl_id _ (joinNl_no_cr _ hcr)]
    rw [splitNl_joinNl _ (by simp) hnl]
    rw [filter_keeps_export _ h]
    exact parseTextGo_export storeLen (e0 :: r0) h 0

/-- A concrete well-formed entry exercising every optional segment of the
exported line. -/
def entryW : Entry :=
  { id := some (some 7), terminal := some (some 2),
    device_timestamp := some "12:00:01.123", level := "warn",
    tag := some "net", message := "hello x", raw := "hello x" }

theorem text_export_import_roundtrip_witness :
    (parseText (logsToText [entryW]) 3).map (fun e => (e.id, e.terminal)) =
      [entryW].map (fun e => (e.id, e.terminal)) :=
  text_export_import_roundtrip [entryW] 3 (by
    intro e he
    rcases List.mem_singleton.mp he with rfl
    exact ⟨⟨7, rfl⟩, ⟨2, rfl⟩, by decide,
      Or.inr ⟨"12:00:01.123", rfl, by decide, by decide⟩, by decide,
      fun s hs => by rw [← Option.some.inj hs]; exact ⟨by decide, by decide⟩,
      ⟨by decide, by decide⟩, ⟨by decide, by decide⟩⟩)

end RTT

